import Mathlib

/-!
# Last-Writer-Wins element set (`src/lww.go`)

A shallow embedding of the Go package `lww` and proofs about its four
operations `Add`, `Remove`, `Exist` and `Get`.

Modelling conventions.

* A Go `string` is a finite sequence of bytes: `GoString := List UInt8`;
  `len(el)` is the length of that list.
* A `time.Time` is the instant it denotes, counted in nanoseconds, together
  with its `Location`. The methods `Before`, `After` and `Equal` of the
  standard library compare the instants only, so two timestamps can be
  `Equal` without being the same value.
* A Go `map[string]time.Time` is a finite map with one entry per key
  (`AList`). Go gives map iteration no order, so two registries are the same
  map when every key has the same entry in both (`Registry.Same`); they are
  the same up to `Equal` when every key has entries of the same instant in
  both (`Registry.SameInstants`).
* A method with a pointer receiver that mutates the set and returns an
  `error` becomes a function returning the new set and the optional error.
  The two mutexes play no role in a sequential execution and are left out.
* `int` is the 64-bit signed integer (sums wrap, `wrapInt`) and `unsafe.Sizeof` of a
  string is the two-word header, 16 bytes (64-bit targets).
-/

namespace Lww

/-- A Go string: a sequence of bytes. -/
abbrev GoString := List UInt8

/-- The built-in `len` on a string: its number of bytes, a non-negative `int`. -/
def len (el : GoString) : Nat := el.length

/-- A `time.Time`: the instant it denotes, in nanoseconds, and its `Location`, which
`Before`, `After` and `Equal` do not look at. -/
structure Time where
  nsec : Int
  loc : Nat
deriving DecidableEq, Repr

/-- `t.Before(u)`: the instant `t` is before `u`. -/
def Time.Before (t u : Time) : Bool := decide (t.nsec < u.nsec)

/-- `t.After(u)`: the instant `t` is after `u`. -/
def Time.After (t u : Time) : Bool := decide (t.nsec > u.nsec)

/-- `t.Equal(u)`: `t` and `u` are the same instant. -/
def Time.Equal (t u : Time) : Bool := decide (t.nsec = u.nsec)

/-- Go errors of the package: the sentinel and `fmt.Errorf` wrapping with `%w`. -/
inductive GoError where
  | ElementSizeError : GoError
  | wrap (msg : String) (err : GoError) : GoError
deriving DecidableEq, Repr

/-- `errors.Is(err, target)`: `target` is in the chain of wrapped errors. -/
def GoError.Is : GoError → GoError → Bool
  | .ElementSizeError, target => decide (GoError.ElementSizeError = target)
  | .wrap msg err, target => decide (GoError.wrap msg err = target) || GoError.Is err target

/-- `const MaxStringInBytes = 1 << 29`. -/
def MaxStringInBytes : Nat := 2 ^ 29

/-- `unsafe.Sizeof(el)` for a string: pointer and length, 16 bytes. -/
def sizeofString : Nat := 16

/-- The value of Go type `int` that an integer operation with exact result `n ≥ 0`
yields: the low 64 bits of `n`, read in two's complement. -/
def wrapInt (n : Nat) : Int :=
  if n % 2 ^ 64 < 2 ^ 63 then ((n % 2 ^ 64 : Nat) : Int) else ((n % 2 ^ 64 : Nat) : Int) - 2 ^ 64

/-- A `map[string]time.Time`. -/
abbrev Registry := AList (fun _ : GoString => Time)

/-- Two registries hold the same entry for every key. -/
def Registry.Same (m₁ m₂ : Registry) : Prop := ∀ k : GoString, m₁.lookup k = m₂.lookup k

/-- The struct `LwwSet` (without its two mutexes). -/
structure LwwSet where
  AddSet : Registry
  RemoveSet : Registry

/-- `New()`: both maps empty. -/
def New : LwwSet := { AddSet := ∅, RemoveSet := ∅ }

/-- `validateElement(el)`. -/
def validateElement (el : GoString) : GoString × Option GoError :=
  if wrapInt (len el + sizeofString) > (MaxStringInBytes : Int) then
    ([], some GoError.ElementSizeError)
  else
    (el, none)

/-- `(*LwwSet).Add(el, timestamp)`. -/
def LwwSet.Add (lset : LwwSet) (el : GoString) (timestamp : Time) : LwwSet × Option GoError :=
  match validateElement el with
  | (_, some err) => (lset, some (GoError.wrap "failed to add element" err))
  | (el, none) =>
    match lset.AddSet.lookup el with
    | some val =>
      let currentTimestamp := val
      if currentTimestamp.Before timestamp then
        ({ lset with AddSet := lset.AddSet.insert el timestamp }, none)
      else
        (lset, none)
    | none => ({ lset with AddSet := lset.AddSet.insert el timestamp }, none)

/-- `(*LwwSet).Remove(el, timestamp)`. -/
def LwwSet.Remove (lset : LwwSet) (el : GoString) (timestamp : Time) : LwwSet × Option GoError :=
  match validateElement el with
  | (_, some err) => (lset, some (GoError.wrap "failed to remove element" err))
  | (el, none) =>
    match lset.RemoveSet.lookup el with
    | some val =>
      let currentTimestamp := val
      if currentTimestamp.Before timestamp then
        ({ lset with RemoveSet := lset.RemoveSet.insert el timestamp }, none)
      else
        (lset, none)
    | none => ({ lset with RemoveSet := lset.RemoveSet.insert el timestamp }, none)

/-- `LwwSet.Exist(el)`. -/
def LwwSet.Exist (lset : LwwSet) (el : GoString) : Bool :=
  match lset.AddSet.lookup el with
  | some addSetTimestamp =>
    match lset.RemoveSet.lookup el with
    | some removeSetTimestamp =>
      if addSetTimestamp.After removeSetTimestamp || addSetTimestamp.Equal removeSetTimestamp then
        true
      else
        false
    | none => true
  | none => false

/-- `LwwSet.Get()`: the loop over the keys of `AddSet`, appending to `results`. -/
def LwwSet.Get (lset : LwwSet) : List GoString :=
  lset.AddSet.keys.foldl
    (fun results el => if lset.Exist el then results ++ [el] else results) []

/-- One call on the set: an `Add` or a `Remove`. -/
inductive Op where
  | add (el : GoString) (timestamp : Time) : Op
  | remove (el : GoString) (timestamp : Time) : Op
deriving DecidableEq, Repr

/-- The call `op` on `lset`: the set afterwards and the returned error. -/
def LwwSet.call (lset : LwwSet) : Op → LwwSet × Option GoError
  | .add el timestamp => lset.Add el timestamp
  | .remove el timestamp => lset.Remove el timestamp

/-- The calls `ops` one after the other (returned errors dropped, as the tests do). -/
def LwwSet.run (lset : LwwSet) (ops : List Op) : LwwSet :=
  ops.foldl (fun s op => (s.call op).1) lset

/-- The timestamps are compared as their instants are: two timestamps of one instant
are at or before each other, whether or not they are the same value. -/
instance : Preorder Time := Preorder.lift Time.nsec

/-- Whether `a` is at or before `b` is a comparison of two integers. -/
instance (a b : Time) : Decidable (a ≤ b) := inferInstanceAs (Decidable (a.nsec ≤ b.nsec))

/-- Whether `a` is before `b` is a comparison of two integers. -/
instance (a b : Time) : Decidable (a < b) := inferInstanceAs (Decidable (a.nsec < b.nsec))

/-- The later of two timestamps, and the first of them when neither is later. -/
instance : Max Time := ⟨fun a b => if a < b then b else a⟩

/-- The instant of a registry entry, when there is an entry. -/
def instant (entry : Option Time) : Option Int := entry.map Time.nsec

/-- Two registries have the same keys and, for every key, entries of the same instant. -/
def Registry.SameInstants (m₁ m₂ : Registry) : Prop :=
  ∀ k : GoString, instant (m₁.lookup k) = instant (m₂.lookup k)

/-- Two calls are tied: both `Add` or both `Remove`, on the same element, with
timestamps that are `Equal` and are not the same value. -/
def Op.tied : Op → Op → Bool
  | .add e₁ t₁, .add e₂ t₂ => decide (e₁ = e₂) && t₁.Equal t₂ && decide (t₁ ≠ t₂)
  | .remove e₁ t₁, .remove e₂ t₂ => decide (e₁ = e₂) && t₁.Equal t₂ && decide (t₁ ≠ t₂)
  | _, _ => false

/-- What a registry holds for a key after a validated write of `t`, given what it held. -/
def stored (old : Option Time) (t : Time) : Option Time :=
  match old with
  | some val => if val.Before t then some t else some val
  | none => some t

/-- The instant of a registry entry after a validated write at instant `n`, given the
instant of the entry before. -/
def storedInstant (old : Option Int) (n : Int) : Option Int :=
  match old with
  | some m => some (max m n)
  | none => some n

/-- The entry of key `k` in `AddSet` after the call `op`, given its entry before. -/
def Op.onAdd (op : Op) (k : GoString) (old : Option Time) : Option Time :=
  match op with
  | .add el t => if (validateElement el).2 = none ∧ k = el then stored old t else old
  | .remove _ _ => old

/-- The entry of key `k` in `RemoveSet` after the call `op`, given its entry before. -/
def Op.onRemove (op : Op) (k : GoString) (old : Option Time) : Option Time :=
  match op with
  | .add _ _ => old
  | .remove el t => if (validateElement el).2 = none ∧ k = el then stored old t else old

/-- The instant of the entry of key `k` in `AddSet` after the call `op`, given the
instant of its entry before. -/
def Op.onAddInstant (op : Op) (k : GoString) (old : Option Int) : Option Int :=
  match op with
  | .add el t => if (validateElement el).2 = none ∧ k = el then storedInstant old t.nsec else old
  | .remove _ _ => old

/-- The instant of the entry of key `k` in `RemoveSet` after the call `op`, given the
instant of its entry before. -/
def Op.onRemoveInstant (op : Op) (k : GoString) (old : Option Int) : Option Int :=
  match op with
  | .add _ _ => old
  | .remove el t =>
    if (validateElement el).2 = none ∧ k = el then storedInstant old t.nsec else old

/-- The element a call is about. -/
def Op.el : Op → GoString
  | .add el _ => el
  | .remove el _ => el

/-- The timestamps of the calls `Add(e, _)` in `ops`. -/
def addStamps (ops : List Op) (e : GoString) : List Time :=
  ops.filterMap fun op =>
    match op with
    | .add el t => if el = e then some t else none
    | .remove _ _ => none

/-- The timestamps of the calls `Remove(e, _)` in `ops`. -/
def removeStamps (ops : List Op) (e : GoString) : List Time :=
  ops.filterMap fun op =>
    match op with
    | .add _ _ => none
    | .remove el t => if el = e then some t else none

/-- The set with its two registries exchanged. -/
def LwwSet.swap (lset : LwwSet) : LwwSet :=
  { AddSet := lset.RemoveSet, RemoveSet := lset.AddSet }

/-- The call `op` has nothing left to write on `lset`: when its element is accepted,
the registry it writes holds a timestamp at or after its own for that element. -/
def Op.settled (op : Op) (lset : LwwSet) : Prop :=
  match op with
  | .add el t =>
    (validateElement el).2 = none → ∃ x, lset.AddSet.lookup el = some x ∧ t ≤ x
  | .remove el t =>
    (validateElement el).2 = none → ∃ x, lset.RemoveSet.lookup el = some x ∧ t ≤ x

/-- An element of `2 ^ 29 - 15` zero bytes. -/
def longElement : GoString := List.replicate 536870897 0

/-! ## Basic facts -/

theorem Time.le_iff (a b : Time) : a ≤ b ↔ a.nsec ≤ b.nsec := Iff.rfl

theorem Time.lt_iff (a b : Time) : a < b ↔ a.nsec < b.nsec := Iff.rfl

theorem Time.Before_iff (a b : Time) : a.Before b = true ↔ a < b := by
  simp [Time.Before, Time.lt_iff]

theorem Time.After_iff (a b : Time) : a.After b = true ↔ b < a := by
  simp [Time.After, Time.lt_iff]

theorem Time.Equal_iff (a b : Time) : a.Equal b = true ↔ a.nsec = b.nsec := by
  simp [Time.Equal]

theorem Time.not_lt_iff {a b : Time} : ¬ a < b ↔ b ≤ a := Int.not_lt

theorem Time.le_iff_lt_or_Equal (a b : Time) : a ≤ b ↔ a < b ∨ a.nsec = b.nsec :=
  Int.le_iff_lt_or_eq

theorem Time.max_of_lt {a b : Time} (h : a < b) : max a b = b := if_pos h

theorem Time.max_of_not_lt {a b : Time} (h : ¬ a < b) : max a b = a := if_neg h

theorem Time.max_cases (a b : Time) : max a b = a ∨ max a b = b := by
  by_cases h : a < b
  · exact Or.inr (Time.max_of_lt h)
  · exact Or.inl (Time.max_of_not_lt h)

theorem Time.le_max_fst (a b : Time) : a ≤ max a b := by
  by_cases h : a < b
  · rw [Time.max_of_lt h]; exact le_of_lt h
  · rw [Time.max_of_not_lt h]

theorem Time.le_max_snd (a b : Time) : b ≤ max a b := by
  by_cases h : a < b
  · rw [Time.max_of_lt h]
  · rw [Time.max_of_not_lt h]; exact Time.not_lt_iff.1 h

theorem Time.nsec_max (a b : Time) : (max a b).nsec = max a.nsec b.nsec := by
  by_cases h : a < b
  · rw [Time.max_of_lt h, max_eq_right (le_of_lt ((Time.lt_iff a b).1 h))]
  · rw [Time.max_of_not_lt h, max_eq_left ((Time.le_iff b a).1 (Time.not_lt_iff.1 h))]

theorem Time.Before_eq_false {a b : Time} (h : b ≤ a) : a.Before b = false := by
  cases hb : a.Before b
  · rfl
  · exact absurd ((Time.Before_iff a b).1 hb) (Time.not_lt_iff.2 h)

theorem stored_some (old t : Time) : stored (some old) t = some (max old t) := by
  show (if old.Before t then some t else some old) = _
  by_cases h : old < t
  · rw [(Time.Before_iff old t).2 h, Time.max_of_lt h]; rfl
  · rw [Time.Before_eq_false (Time.not_lt_iff.1 h), Time.max_of_not_lt h]; rfl

theorem validateElement_cases (el : GoString) :
    validateElement el = (el, none) ∨ validateElement el = ([], some GoError.ElementSizeError) := by
  unfold validateElement
  split
  · exact Or.inr rfl
  · exact Or.inl rfl

theorem validateElement_ok {el : GoString} (h : (validateElement el).2 = none) :
    validateElement el = (el, none) := by
  rcases validateElement_cases el with h' | h'
  · exact h'
  · rw [h'] at h; cases h

theorem validateElement_err {el : GoString} (h : (validateElement el).2 ≠ none) :
    validateElement el = ([], some GoError.ElementSizeError) := by
  rcases validateElement_cases el with h' | h'
  · rw [h'] at h; exact absurd rfl h
  · exact h'

theorem Add_of_err {el : GoString} (h : (validateElement el).2 ≠ none) (lset : LwwSet) (t : Time) :
    lset.Add el t = (lset, some (GoError.wrap "failed to add element" GoError.ElementSizeError)) := by
  unfold LwwSet.Add
  rw [validateElement_err h]

theorem Remove_of_err {el : GoString} (h : (validateElement el).2 ≠ none) (lset : LwwSet)
    (t : Time) :
    lset.Remove el t
      = (lset, some (GoError.wrap "failed to remove element" GoError.ElementSizeError)) := by
  unfold LwwSet.Remove
  rw [validateElement_err h]

theorem Add_snd (lset : LwwSet) (el : GoString) (t : Time) :
    (lset.Add el t).2 = (validateElement el).2.map (GoError.wrap "failed to add element") := by
  rcases validateElement_cases el with h | h
  · simp only [LwwSet.Add, h]
    cases lset.AddSet.lookup el with
    | none => rfl
    | some val => dsimp only; split <;> rfl
  · unfold LwwSet.Add
    rw [h]
    rfl

theorem Remove_snd (lset : LwwSet) (el : GoString) (t : Time) :
    (lset.Remove el t).2
      = (validateElement el).2.map (GoError.wrap "failed to remove element") := by
  rcases validateElement_cases el with h | h
  · simp only [LwwSet.Remove, h]
    cases lset.RemoveSet.lookup el with
    | none => rfl
    | some val => dsimp only; split <;> rfl
  · unfold LwwSet.Remove
    rw [h]
    rfl

theorem Add_RemoveSet (lset : LwwSet) (el : GoString) (t : Time) :
    (lset.Add el t).1.RemoveSet = lset.RemoveSet := by
  rcases validateElement_cases el with h | h
  · simp only [LwwSet.Add, h]
    cases lset.AddSet.lookup el with
    | none => rfl
    | some val => dsimp only; split <;> rfl
  · unfold LwwSet.Add
    rw [h]

theorem Remove_AddSet (lset : LwwSet) (el : GoString) (t : Time) :
    (lset.Remove el t).1.AddSet = lset.AddSet := by
  rcases validateElement_cases el with h | h
  · simp only [LwwSet.Remove, h]
    cases lset.RemoveSet.lookup el with
    | none => rfl
    | some val => dsimp only; split <;> rfl
  · unfold LwwSet.Remove
    rw [h]

theorem Add_lookup_self {el : GoString} (h : (validateElement el).2 = none) (lset : LwwSet)
    (t : Time) :
    (lset.Add el t).1.AddSet.lookup el = stored (lset.AddSet.lookup el) t := by
  simp only [LwwSet.Add, validateElement_ok h]
  cases hl : lset.AddSet.lookup el with
  | none => simp [stored]
  | some val =>
    dsimp only [stored]
    split
    · simp
    · simpa using hl

theorem Add_lookup_other (lset : LwwSet) (el : GoString) (t : Time) {k : GoString}
    (hk : k ≠ el) : (lset.Add el t).1.AddSet.lookup k = lset.AddSet.lookup k := by
  rcases validateElement_cases el with h | h
  · simp only [LwwSet.Add, h]
    cases lset.AddSet.lookup el with
    | none => simp [AList.lookup_insert_ne hk]
    | some val =>
      dsimp only
      split
      · simp [AList.lookup_insert_ne hk]
      · rfl
  · unfold LwwSet.Add
    rw [h]

theorem Remove_lookup_self {el : GoString} (h : (validateElement el).2 = none) (lset : LwwSet)
    (t : Time) :
    (lset.Remove el t).1.RemoveSet.lookup el = stored (lset.RemoveSet.lookup el) t := by
  simp only [LwwSet.Remove, validateElement_ok h]
  cases hl : lset.RemoveSet.lookup el with
  | none => simp [stored]
  | some val =>
    dsimp only [stored]
    split
    · simp
    · simpa using hl

theorem Remove_lookup_other (lset : LwwSet) (el : GoString) (t : Time) {k : GoString}
    (hk : k ≠ el) : (lset.Remove el t).1.RemoveSet.lookup k = lset.RemoveSet.lookup k := by
  rcases validateElement_cases el with h | h
  · simp only [LwwSet.Remove, h]
    cases lset.RemoveSet.lookup el with
    | none => simp [AList.lookup_insert_ne hk]
    | some val =>
      dsimp only
      split
      · simp [AList.lookup_insert_ne hk]
      · rfl
  · unfold LwwSet.Remove
    rw [h]

theorem wrapInt_of_lt {n : Nat} (h : n < 2 ^ 63) : wrapInt n = (n : Int) := by
  have h1 : n % 2 ^ 64 = n := Nat.mod_eq_of_lt (by omega)
  unfold wrapInt
  rw [h1, if_pos h]

theorem validateElement_snd_of_gt {el : GoString} (hlen : len el + sizeofString < 2 ^ 63)
    (h : len el + sizeofString > MaxStringInBytes) :
    (validateElement el).2 = some GoError.ElementSizeError := by
  unfold validateElement
  rw [wrapInt_of_lt hlen, if_pos (by exact_mod_cast h)]

theorem validateElement_snd_of_le {el : GoString} (hlen : len el + sizeofString < 2 ^ 63)
    (h : len el + sizeofString ≤ MaxStringInBytes) :
    (validateElement el).2 = none := by
  unfold validateElement
  rw [wrapInt_of_lt hlen, if_neg (by exact_mod_cast not_lt.2 h)]

theorem Add_eq_self {el : GoString} (h : (validateElement el).2 = none) {lset : LwwSet}
    {t x : Time} (hx : lset.AddSet.lookup el = some x) (hle : t ≤ x) :
    lset.Add el t = (lset, none) := by
  have hb : x.Before t = false := Time.Before_eq_false hle
  unfold LwwSet.Add
  rw [validateElement_ok h]
  simp only [hx, hb]
  rfl

theorem Remove_eq_self {el : GoString} (h : (validateElement el).2 = none) {lset : LwwSet}
    {t x : Time} (hx : lset.RemoveSet.lookup el = some x) (hle : t ≤ x) :
    lset.Remove el t = (lset, none) := by
  have hb : x.Before t = false := Time.Before_eq_false hle
  unfold LwwSet.Remove
  rw [validateElement_ok h]
  simp only [hx, hb]
  rfl

theorem stored_ge (old : Option Time) (t : Time) : ∃ x, stored old t = some x ∧ t ≤ x := by
  cases old with
  | none => exact ⟨t, rfl, le_rfl⟩
  | some o => exact ⟨max o t, stored_some o t, Time.le_max_snd o t⟩

theorem foldl_append_if (p : GoString → Bool) (l acc : List GoString) :
    l.foldl (fun results el => if p el then results ++ [el] else results) acc
      = acc ++ l.filter p := by
  induction l generalizing acc with
  | nil => simp
  | cons a l ih =>
    rw [List.foldl_cons, ih]
    by_cases ha : p a = true
    · simp [ha]
    · simp [ha]

theorem Get_eq_filter (lset : LwwSet) :
    lset.Get = lset.AddSet.keys.filter (fun el => lset.Exist el) := by
  unfold LwwSet.Get
  rw [foldl_append_if (fun el => lset.Exist el)]
  rfl

theorem Exist_mem_keys {lset : LwwSet} {el : GoString} (h : lset.Exist el = true) :
    el ∈ lset.AddSet.keys := by
  refine AList.mem_keys.1 (AList.lookup_isSome.1 ?_)
  unfold LwwSet.Exist at h
  cases hl : lset.AddSet.lookup el with
  | none => rw [hl] at h; cases h
  | some a => rfl

theorem mem_Get_iff (lset : LwwSet) (el : GoString) :
    el ∈ lset.Get ↔ lset.Exist el = true := by
  rw [Get_eq_filter, List.mem_filter]
  exact ⟨fun h => h.2, fun h => ⟨Exist_mem_keys h, h⟩⟩

theorem Add_AddSet_lookup (lset : LwwSet) (el : GoString) (t : Time) (k : GoString) :
    (lset.Add el t).1.AddSet.lookup k = (Op.add el t).onAdd k (lset.AddSet.lookup k) := by
  show _ = if (validateElement el).2 = none ∧ k = el then stored (lset.AddSet.lookup k) t
    else lset.AddSet.lookup k
  by_cases h : (validateElement el).2 = none
  · by_cases hk : k = el
    · subst hk
      rw [if_pos ⟨h, rfl⟩, Add_lookup_self h]
    · rw [if_neg (fun hh => hk hh.2), Add_lookup_other lset el t hk]
  · rw [if_neg (fun hh => h hh.1), Add_of_err h]

theorem Remove_RemoveSet_lookup (lset : LwwSet) (el : GoString) (t : Time) (k : GoString) :
    (lset.Remove el t).1.RemoveSet.lookup k
      = (Op.remove el t).onRemove k (lset.RemoveSet.lookup k) := by
  show _ = if (validateElement el).2 = none ∧ k = el then stored (lset.RemoveSet.lookup k) t
    else lset.RemoveSet.lookup k
  by_cases h : (validateElement el).2 = none
  · by_cases hk : k = el
    · subst hk
      rw [if_pos ⟨h, rfl⟩, Remove_lookup_self h]
    · rw [if_neg (fun hh => hk hh.2), Remove_lookup_other lset el t hk]
  · rw [if_neg (fun hh => h hh.1), Remove_of_err h]

theorem call_AddSet_lookup (lset : LwwSet) (op : Op) (k : GoString) :
    (lset.call op).1.AddSet.lookup k = op.onAdd k (lset.AddSet.lookup k) := by
  cases op with
  | add el t => exact Add_AddSet_lookup lset el t k
  | remove el t =>
    show (lset.Remove el t).1.AddSet.lookup k = _
    rw [Remove_AddSet]
    rfl

theorem call_RemoveSet_lookup (lset : LwwSet) (op : Op) (k : GoString) :
    (lset.call op).1.RemoveSet.lookup k = op.onRemove k (lset.RemoveSet.lookup k) := by
  cases op with
  | add el t =>
    show (lset.Add el t).1.RemoveSet.lookup k = _
    rw [Add_RemoveSet]
    rfl
  | remove el t => exact Remove_RemoveSet_lookup lset el t k

theorem run_cons (lset : LwwSet) (op : Op) (ops : List Op) :
    lset.run (op :: ops) = (lset.call op).1.run ops := rfl

theorem run_append (lset : LwwSet) (ops₁ ops₂ : List Op) :
    lset.run (ops₁ ++ ops₂) = (lset.run ops₁).run ops₂ := by
  unfold LwwSet.run
  rw [List.foldl_append]

theorem run_AddSet_lookup (lset : LwwSet) (ops : List Op) (k : GoString) :
    (lset.run ops).AddSet.lookup k
      = ops.foldl (fun old op => op.onAdd k old) (lset.AddSet.lookup k) := by
  induction ops generalizing lset with
  | nil => rfl
  | cons op ops ih => rw [run_cons, ih, call_AddSet_lookup, List.foldl_cons]

theorem run_RemoveSet_lookup (lset : LwwSet) (ops : List Op) (k : GoString) :
    (lset.run ops).RemoveSet.lookup k
      = ops.foldl (fun old op => op.onRemove k old) (lset.RemoveSet.lookup k) := by
  induction ops generalizing lset with
  | nil => rfl
  | cons op ops ih => rw [run_cons, ih, call_RemoveSet_lookup, List.foldl_cons]

theorem Time.max_def (a b : Time) : max a b = if a < b then b else a := rfl

theorem Time.max_comm_of {a b : Time} (h : a.nsec = b.nsec → a = b) : max a b = max b a := by
  by_cases hab : a < b
  · rw [Time.max_of_lt hab, Time.max_of_not_lt (Time.not_lt_iff.2 (le_of_lt hab))]
  · by_cases hba : b < a
    · rw [Time.max_of_not_lt hab, Time.max_of_lt hba]
    · rw [Time.max_of_not_lt hab, Time.max_of_not_lt hba]
      exact h (Int.le_antisymm (Time.not_lt_iff.1 hba) (Time.not_lt_iff.1 hab))

theorem Time.max_right_comm_of (o : Time) {a b : Time} (h : a.nsec = b.nsec → a = b) :
    max (max o a) b = max (max o b) a := by
  by_cases hab : a = b
  · rw [hab]
  · have hne : a.nsec ≠ b.nsec := fun hh => hab (h hh)
    simp only [Time.max_def]
    split_ifs <;> first | rfl | (exfalso; simp only [Time.lt_iff] at *; omega)

theorem stored_comm_of {a b : Time} (h : a.nsec = b.nsec → a = b) (old : Option Time) :
    stored (stored old a) b = stored (stored old b) a := by
  cases old with
  | none =>
    show stored (some a) b = stored (some b) a
    rw [stored_some, stored_some, Time.max_comm_of h]
  | some o =>
    rw [stored_some, stored_some, stored_some, stored_some, Time.max_right_comm_of o h]

theorem instant_stored (old : Option Time) (t : Time) :
    instant (stored old t) = storedInstant (instant old) t.nsec := by
  cases old with
  | none => rfl
  | some o =>
    rw [stored_some]
    show some (max o t).nsec = some (max o.nsec t.nsec)
    rw [Time.nsec_max]

theorem storedInstant_comm (old : Option Int) (a b : Int) :
    storedInstant (storedInstant old a) b = storedInstant (storedInstant old b) a := by
  cases old with
  | none =>
    show some (max a b) = some (max b a)
    rw [max_comm]
  | some o =>
    show some (max (max o a) b) = some (max (max o b) a)
    rw [max_assoc, max_comm a b, ← max_assoc]

theorem instant_onAdd (op : Op) (k : GoString) (old : Option Time) :
    instant (op.onAdd k old) = op.onAddInstant k (instant old) := by
  cases op with
  | remove el t => rfl
  | add el t =>
    show instant (if (validateElement el).2 = none ∧ k = el then stored old t else old)
      = if (validateElement el).2 = none ∧ k = el then storedInstant (instant old) t.nsec
        else instant old
    split
    · exact instant_stored old t
    · rfl

theorem instant_onRemove (op : Op) (k : GoString) (old : Option Time) :
    instant (op.onRemove k old) = op.onRemoveInstant k (instant old) := by
  cases op with
  | add el t => rfl
  | remove el t =>
    show instant (if (validateElement el).2 = none ∧ k = el then stored old t else old)
      = if (validateElement el).2 = none ∧ k = el then storedInstant (instant old) t.nsec
        else instant old
    split
    · exact instant_stored old t
    · rfl

theorem onAddInstant_comm (op₁ op₂ : Op) (k : GoString) (old : Option Int) :
    op₂.onAddInstant k (op₁.onAddInstant k old) = op₁.onAddInstant k (op₂.onAddInstant k old) := by
  cases op₁ with
  | remove e₁ t₁ => rfl
  | add e₁ t₁ =>
    cases op₂ with
    | remove e₂ t₂ => rfl
    | add e₂ t₂ =>
      unfold Op.onAddInstant
      dsimp only
      split <;> split <;> first | rfl | exact storedInstant_comm _ _ _

theorem onRemoveInstant_comm (op₁ op₂ : Op) (k : GoString) (old : Option Int) :
    op₂.onRemoveInstant k (op₁.onRemoveInstant k old)
      = op₁.onRemoveInstant k (op₂.onRemoveInstant k old) := by
  cases op₁ with
  | add e₁ t₁ => rfl
  | remove e₁ t₁ =>
    cases op₂ with
    | add e₂ t₂ => rfl
    | remove e₂ t₂ =>
      unfold Op.onRemoveInstant
      dsimp only
      split <;> split <;> first | rfl | exact storedInstant_comm _ _ _

theorem onAdd_comm_instant (op₁ op₂ : Op) (k : GoString) (old : Option Time) :
    instant (op₂.onAdd k (op₁.onAdd k old)) = instant (op₁.onAdd k (op₂.onAdd k old)) := by
  rw [instant_onAdd, instant_onAdd, instant_onAdd, instant_onAdd]
  exact onAddInstant_comm op₁ op₂ k _

theorem onRemove_comm_instant (op₁ op₂ : Op) (k : GoString) (old : Option Time) :
    instant (op₂.onRemove k (op₁.onRemove k old))
      = instant (op₁.onRemove k (op₂.onRemove k old)) := by
  rw [instant_onRemove, instant_onRemove, instant_onRemove, instant_onRemove]
  exact onRemoveInstant_comm op₁ op₂ k _

theorem tied_add_false {e : GoString} {t₁ t₂ : Time}
    (h : (Op.add e t₁).tied (Op.add e t₂) = false) (hn : t₁.nsec = t₂.nsec) : t₁ = t₂ := by
  by_contra hne
  have ht : (Op.add e t₁).tied (Op.add e t₂) = true := by
    simp [Op.tied, Time.Equal, hn, hne]
  rw [ht] at h
  cases h

theorem tied_remove_false {e : GoString} {t₁ t₂ : Time}
    (h : (Op.remove e t₁).tied (Op.remove e t₂) = false) (hn : t₁.nsec = t₂.nsec) :
    t₁ = t₂ := by
  by_contra hne
  have ht : (Op.remove e t₁).tied (Op.remove e t₂) = true := by
    simp [Op.tied, Time.Equal, hn, hne]
  rw [ht] at h
  cases h

theorem onAdd_comm_of {op₁ op₂ : Op} (h : op₁.tied op₂ = false) (k : GoString)
    (old : Option Time) :
    op₂.onAdd k (op₁.onAdd k old) = op₁.onAdd k (op₂.onAdd k old) := by
  cases op₁ with
  | remove e₁ t₁ => rfl
  | add e₁ t₁ =>
    cases op₂ with
    | remove e₂ t₂ => rfl
    | add e₂ t₂ =>
      show (if (validateElement e₂).2 = none ∧ k = e₂ then
          stored (if (validateElement e₁).2 = none ∧ k = e₁ then stored old t₁ else old) t₂
        else (if (validateElement e₁).2 = none ∧ k = e₁ then stored old t₁ else old))
        = (if (validateElement e₁).2 = none ∧ k = e₁ then
          stored (if (validateElement e₂).2 = none ∧ k = e₂ then stored old t₂ else old) t₁
        else (if (validateElement e₂).2 = none ∧ k = e₂ then stored old t₂ else old))
      by_cases h₁ : (validateElement e₁).2 = none ∧ k = e₁
      · by_cases h₂ : (validateElement e₂).2 = none ∧ k = e₂
        · simp only [if_pos h₁, if_pos h₂]
          have he : e₁ = e₂ := h₁.2.symm.trans h₂.2
          subst he
          exact stored_comm_of (tied_add_false h) old
        · simp only [if_pos h₁, if_neg h₂]
      · by_cases h₂ : (validateElement e₂).2 = none ∧ k = e₂
        · simp only [if_neg h₁, if_pos h₂]
        · simp only [if_neg h₁, if_neg h₂]

theorem onRemove_comm_of {op₁ op₂ : Op} (h : op₁.tied op₂ = false) (k : GoString)
    (old : Option Time) :
    op₂.onRemove k (op₁.onRemove k old) = op₁.onRemove k (op₂.onRemove k old) := by
  cases op₁ with
  | add e₁ t₁ => rfl
  | remove e₁ t₁ =>
    cases op₂ with
    | add e₂ t₂ => rfl
    | remove e₂ t₂ =>
      show (if (validateElement e₂).2 = none ∧ k = e₂ then
          stored (if (validateElement e₁).2 = none ∧ k = e₁ then stored old t₁ else old) t₂
        else (if (validateElement e₁).2 = none ∧ k = e₁ then stored old t₁ else old))
        = (if (validateElement e₁).2 = none ∧ k = e₁ then
          stored (if (validateElement e₂).2 = none ∧ k = e₂ then stored old t₂ else old) t₁
        else (if (validateElement e₂).2 = none ∧ k = e₂ then stored old t₂ else old))
      by_cases h₁ : (validateElement e₁).2 = none ∧ k = e₁
      · by_cases h₂ : (validateElement e₂).2 = none ∧ k = e₂
        · simp only [if_pos h₁, if_pos h₂]
          have he : e₁ = e₂ := h₁.2.symm.trans h₂.2
          subst he
          exact stored_comm_of (tied_remove_false h) old
        · simp only [if_pos h₁, if_neg h₂]
      · by_cases h₂ : (validateElement e₂).2 = none ∧ k = e₂
        · simp only [if_neg h₁, if_pos h₂]
        · simp only [if_neg h₁, if_neg h₂]

theorem Exist_congr {s₁ s₂ : LwwSet} {el : GoString}
    (ha : s₁.AddSet.lookup el = s₂.AddSet.lookup el)
    (hr : s₁.RemoveSet.lookup el = s₂.RemoveSet.lookup el) : s₁.Exist el = s₂.Exist el := by
  unfold LwwSet.Exist
  rw [ha, hr]

theorem Exist_congr_instant {s₁ s₂ : LwwSet} {el : GoString}
    (ha : instant (s₁.AddSet.lookup el) = instant (s₂.AddSet.lookup el))
    (hr : instant (s₁.RemoveSet.lookup el) = instant (s₂.RemoveSet.lookup el)) :
    s₁.Exist el = s₂.Exist el := by
  unfold LwwSet.Exist
  cases h₁ : s₁.AddSet.lookup el with
  | none =>
    rw [h₁] at ha
    cases h₂ : s₂.AddSet.lookup el with
    | none => rfl
    | some a₂ => rw [h₂] at ha; cases ha
  | some a₁ =>
    rw [h₁] at ha
    cases h₂ : s₂.AddSet.lookup el with
    | none => rw [h₂] at ha; cases ha
    | some a₂ =>
      rw [h₂] at ha
      have hna : a₁.nsec = a₂.nsec := Option.some.inj ha
      cases h₃ : s₁.RemoveSet.lookup el with
      | none =>
        rw [h₃] at hr
        cases h₄ : s₂.RemoveSet.lookup el with
        | none => rfl
        | some r₂ => rw [h₄] at hr; cases hr
      | some r₁ =>
        rw [h₃] at hr
        cases h₄ : s₂.RemoveSet.lookup el with
        | none => rw [h₄] at hr; cases hr
        | some r₂ =>
          rw [h₄] at hr
          have hnr : r₁.nsec = r₂.nsec := Option.some.inj hr
          simp only [Time.After, Time.Equal, hna, hnr]

theorem stored_eq_some {old : Option Time} {t a : Time} (h : stored old t = some a) :
    old = some a ∨ a = t := by
  cases old with
  | none =>
    have h' : some t = some a := h
    exact Or.inr (Option.some.inj h').symm
  | some o =>
    rw [stored_some] at h
    have h' : max o t = a := Option.some.inj h
    rcases Time.max_cases o t with hm | hm
    · left; rw [← h', hm]
    · right; rw [← h', hm]

theorem onAdd_mono (op : Op) (k : GoString) (x : Time) :
    ∃ y, op.onAdd k (some x) = some y ∧ x ≤ y := by
  cases op with
  | remove el t => exact ⟨x, rfl, le_rfl⟩
  | add el t =>
    show ∃ y, (if (validateElement el).2 = none ∧ k = el then stored (some x) t else some x)
      = some y ∧ x ≤ y
    split
    · exact ⟨max x t, stored_some x t, Time.le_max_fst x t⟩
    · exact ⟨x, rfl, le_rfl⟩

theorem onRemove_mono (op : Op) (k : GoString) (x : Time) :
    ∃ y, op.onRemove k (some x) = some y ∧ x ≤ y := by
  cases op with
  | add el t => exact ⟨x, rfl, le_rfl⟩
  | remove el t =>
    show ∃ y, (if (validateElement el).2 = none ∧ k = el then stored (some x) t else some x)
      = some y ∧ x ≤ y
    split
    · exact ⟨max x t, stored_some x t, Time.le_max_fst x t⟩
    · exact ⟨x, rfl, le_rfl⟩

theorem foldl_mono (f : Option Time → Op → Option Time)
    (hf : ∀ op x, ∃ y, f (some x) op = some y ∧ x ≤ y) (ops : List Op) (x : Time) :
    ∃ y, ops.foldl f (some x) = some y ∧ x ≤ y := by
  induction ops generalizing x with
  | nil => exact ⟨x, rfl, le_rfl⟩
  | cons op ops ih =>
    obtain ⟨y, hy, hxy⟩ := hf op x
    obtain ⟨z, hz, hyz⟩ := ih y
    exact ⟨z, by rw [List.foldl_cons, hy, hz], hxy.trans hyz⟩

theorem foldl_onAdd_some {ops : List Op} {k : GoString} {old : Option Time} {a : Time}
    (h : ops.foldl (fun o op => op.onAdd k o) old = some a) :
    old = some a ∨ ((validateElement k).2 = none ∧ Op.add k a ∈ ops) := by
  induction ops generalizing old with
  | nil => exact Or.inl h
  | cons op ops ih =>
    rw [List.foldl_cons] at h
    rcases ih h with h1 | ⟨hv, hm⟩
    · cases op with
      | remove el t => exact Or.inl h1
      | add el t =>
        have h2 : (if (validateElement el).2 = none ∧ k = el then stored old t else old)
            = some a := h1
        split at h2
        · rename_i hc
          rcases stored_eq_some h2 with h3 | h3
          · exact Or.inl h3
          · right
            obtain ⟨hv, hk⟩ := hc
            subst hk
            subst h3
            exact ⟨hv, List.mem_cons_self _ _⟩
        · exact Or.inl h2
    · exact Or.inr ⟨hv, List.mem_cons_of_mem _ hm⟩

theorem foldl_onRemove_ge {ops : List Op} {k : GoString} {tr : Time}
    (hv : (validateElement k).2 = none) (hm : Op.remove k tr ∈ ops) (old : Option Time) :
    ∃ r, ops.foldl (fun o op => op.onRemove k o) old = some r ∧ tr ≤ r := by
  induction ops generalizing old with
  | nil => cases hm
  | cons op ops ih =>
    rw [List.foldl_cons]
    rcases List.mem_cons.1 hm with h | h
    · subst h
      have h1 : (Op.remove k tr).onRemove k old = stored old tr := by
        show (if (validateElement k).2 = none ∧ k = k then stored old tr else old) = _
        rw [if_pos ⟨hv, rfl⟩]
      obtain ⟨x, hx, hle⟩ := stored_ge old tr
      obtain ⟨y, hy, hxy⟩ := foldl_mono (fun o op => op.onRemove k o)
        (fun op x => onRemove_mono op k x) ops x
      exact ⟨y, by rw [h1, hx, hy], hle.trans hxy⟩
    · exact ih h _

theorem Add_of_lookup_none {el : GoString} (h : (validateElement el).2 = none)
    {lset : LwwSet} (hn : lset.AddSet.lookup el = none) (t : Time) :
    lset.Add el t = ({ lset with AddSet := lset.AddSet.insert el t }, none) := by
  unfold LwwSet.Add
  rw [validateElement_ok h]
  simp only [hn]

theorem mem_keys_iff_lookup (m : Registry) (k : GoString) :
    k ∈ m.keys ↔ ∃ x, m.lookup k = some x := by
  rw [← AList.mem_keys, ← AList.lookup_isSome, Option.isSome_iff_exists]

theorem Get_eq_singleton {lset : LwwSet} {el : GoString} (hk : lset.AddSet.keys = [el])
    (he : lset.Exist el = true) : lset.Get = [el] := by
  rw [Get_eq_filter, hk, List.filter_cons_of_pos (by exact he), List.filter_nil]

theorem mem_addStamps (ops : List Op) (e : GoString) (m : Time) :
    m ∈ addStamps ops e ↔ Op.add e m ∈ ops := by
  unfold addStamps
  rw [List.mem_filterMap]
  constructor
  · rintro ⟨op, hop, h⟩
    cases op with
    | remove el t => cases h
    | add el t =>
      dsimp only at h
      split at h
      · rename_i he
        cases h
        subst he
        exact hop
      · cases h
  · intro h
    exact ⟨Op.add e m, h, by simp⟩

theorem mem_removeStamps (ops : List Op) (e : GoString) (m : Time) :
    m ∈ removeStamps ops e ↔ Op.remove e m ∈ ops := by
  unfold removeStamps
  rw [List.mem_filterMap]
  constructor
  · rintro ⟨op, hop, h⟩
    cases op with
    | add el t => cases h
    | remove el t =>
      dsimp only at h
      split at h
      · rename_i he
        cases h
        subst he
        exact hop
      · cases h
  · intro h
    exact ⟨Op.remove e m, h, by simp⟩

theorem foldl_onAdd_eq_stamps (ops : List Op) (k : GoString)
    (hv : ∀ op ∈ ops, (validateElement op.el).2 = none) (old : Option Time) :
    ops.foldl (fun o op => op.onAdd k o) old = (addStamps ops k).foldl stored old := by
  induction ops generalizing old with
  | nil => rfl
  | cons op ops ih =>
    have hv' : ∀ op' ∈ ops, (validateElement op'.el).2 = none :=
      fun op' h => hv op' (List.mem_cons_of_mem _ h)
    rw [List.foldl_cons, ih hv']
    cases op with
    | remove el t => rfl
    | add el t =>
      have hel : (validateElement el).2 = none := hv (Op.add el t) (List.mem_cons_self _ _)
      by_cases hk : el = k
      · subst hk
        have h1 : (Op.add el t).onAdd el old = stored old t := by
          show (if (validateElement el).2 = none ∧ el = el then stored old t else old) = _
          rw [if_pos ⟨hel, rfl⟩]
        have h2 : addStamps (Op.add el t :: ops) el = t :: addStamps ops el := by
          unfold addStamps
          rw [List.filterMap_cons]
          simp
        rw [h1, h2, List.foldl_cons]
      · have h1 : (Op.add el t).onAdd k old = old := by
          show (if (validateElement el).2 = none ∧ k = el then stored old t else old) = _
          rw [if_neg (fun hh => hk hh.2.symm)]
        have h2 : addStamps (Op.add el t :: ops) k = addStamps ops k := by
          unfold addStamps
          rw [List.filterMap_cons]
          simp [hk]
        rw [h1, h2]

theorem foldl_onRemove_eq_stamps (ops : List Op) (k : GoString)
    (hv : ∀ op ∈ ops, (validateElement op.el).2 = none) (old : Option Time) :
    ops.foldl (fun o op => op.onRemove k o) old = (removeStamps ops k).foldl stored old := by
  induction ops generalizing old with
  | nil => rfl
  | cons op ops ih =>
    have hv' : ∀ op' ∈ ops, (validateElement op'.el).2 = none :=
      fun op' h => hv op' (List.mem_cons_of_mem _ h)
    rw [List.foldl_cons, ih hv']
    cases op with
    | add el t => rfl
    | remove el t =>
      have hel : (validateElement el).2 = none := hv (Op.remove el t) (List.mem_cons_self _ _)
      by_cases hk : el = k
      · subst hk
        have h1 : (Op.remove el t).onRemove el old = stored old t := by
          show (if (validateElement el).2 = none ∧ el = el then stored old t else old) = _
          rw [if_pos ⟨hel, rfl⟩]
        have h2 : removeStamps (Op.remove el t :: ops) el = t :: removeStamps ops el := by
          unfold removeStamps
          rw [List.filterMap_cons]
          simp
        rw [h1, h2, List.foldl_cons]
      · have h1 : (Op.remove el t).onRemove k old = old := by
          show (if (validateElement el).2 = none ∧ k = el then stored old t else old) = _
          rw [if_neg (fun hh => hk hh.2.symm)]
        have h2 : removeStamps (Op.remove el t :: ops) k = removeStamps ops k := by
          unfold removeStamps
          rw [List.filterMap_cons]
          simp [hk]
        rw [h1, h2]

theorem foldl_stored_some (ts : List Time) (a : Time) :
    ∃ m, ts.foldl stored (some a) = some m ∧ (m = a ∨ m ∈ ts) ∧ a ≤ m ∧ ∀ t ∈ ts, t ≤ m := by
  induction ts generalizing a with
  | nil => exact ⟨a, rfl, Or.inl rfl, le_rfl, fun t h => absurd h (List.not_mem_nil t)⟩
  | cons t ts ih =>
    obtain ⟨m, hm, hmem, hle, hall⟩ := ih (max a t)
    refine ⟨m, by rw [List.foldl_cons, stored_some, hm], ?_, (Time.le_max_fst a t).trans hle, ?_⟩
    · rcases hmem with h | h
      · rcases Time.max_cases a t with hc | hc
        · left; rw [h, hc]
        · right; rw [h, hc]; exact List.mem_cons_self _ _
      · right; exact List.mem_cons_of_mem _ h
    · intro t' ht'
      rcases List.mem_cons.1 ht' with h | h
      · rw [h]; exact (Time.le_max_snd a t).trans hle
      · exact hall t' h

theorem foldl_stored_none_cons (t : Time) (ts : List Time) :
    ∃ x, (t :: ts).foldl stored none = some x ∧ x ∈ t :: ts ∧ ∀ u ∈ t :: ts, u ≤ x := by
  obtain ⟨x, hx, hmem, hle, hall⟩ := foldl_stored_some ts t
  refine ⟨x, by rw [List.foldl_cons]; exact hx, ?_, ?_⟩
  · rcases hmem with h | h
    · rw [h]; exact List.mem_cons_self _ _
    · exact List.mem_cons_of_mem _ h
  · intro u hu
    rcases List.mem_cons.1 hu with h | h
    · rw [h]; exact hle
    · exact hall u h

theorem foldl_stored_none_spec {ts : List Time} {m : Time}
    (h : ts.foldl stored none = some m) : m ∈ ts ∧ ∀ t ∈ ts, t ≤ m := by
  cases ts with
  | nil => cases h
  | cons t ts =>
    obtain ⟨x, hx, hmem, hall⟩ := foldl_stored_none_cons t ts
    rw [hx] at h
    have hxm : x = m := Option.some.inj h
    rw [← hxm]
    exact ⟨hmem, hall⟩

theorem foldl_stored_none_of_max {ts : List Time} {m : Time} (hm : m ∈ ts)
    (hall : ∀ t ∈ ts, t ≤ m) (hnt : ∀ t ∈ ts, t.nsec = m.nsec → t = m) :
    ts.foldl stored none = some m := by
  cases ts with
  | nil => exact absurd hm (List.not_mem_nil m)
  | cons t ts =>
    obtain ⟨x, hx, hmem, hxall⟩ := foldl_stored_none_cons t ts
    rw [hx]
    exact congrArg some (hnt x hmem (Int.le_antisymm (hall x hmem) (hxall m hm)))

theorem foldl_stored_none_eq_none (ts : List Time) :
    ts.foldl stored none = none ↔ ts = [] := by
  cases ts with
  | nil => exact ⟨fun _ => rfl, fun _ => rfl⟩
  | cons t ts =>
    obtain ⟨x, hx, _⟩ := foldl_stored_some ts t
    have hfold : (t :: ts).foldl stored none = some x := by
      rw [List.foldl_cons]; exact hx
    rw [hfold]
    exact ⟨fun h => Option.noConfusion h, fun h => List.noConfusion h⟩

theorem instant_foldl_onAdd (ops : List Op) (k : GoString) (old : Option Time) :
    instant (ops.foldl (fun o op => op.onAdd k o) old)
      = ops.foldl (fun o op => op.onAddInstant k o) (instant old) := by
  induction ops generalizing old with
  | nil => rfl
  | cons op ops ih => rw [List.foldl_cons, ih, instant_onAdd, List.foldl_cons]

theorem instant_foldl_onRemove (ops : List Op) (k : GoString) (old : Option Time) :
    instant (ops.foldl (fun o op => op.onRemove k o) old)
      = ops.foldl (fun o op => op.onRemoveInstant k o) (instant old) := by
  induction ops generalizing old with
  | nil => rfl
  | cons op ops ih => rw [List.foldl_cons, ih, instant_onRemove, List.foldl_cons]

theorem foldl_onAdd_perm_instant {ops ops' : List Op} (hp : ops'.Perm ops) (k : GoString)
    (old : Option Time) :
    instant (ops'.foldl (fun o op => op.onAdd k o) old)
      = instant (ops.foldl (fun o op => op.onAdd k o) old) := by
  rw [instant_foldl_onAdd, instant_foldl_onAdd]
  exact hp.foldl_eq' (fun x _ y _ z => onAddInstant_comm x y k z) _

theorem foldl_onRemove_perm_instant {ops ops' : List Op} (hp : ops'.Perm ops)
    (k : GoString) (old : Option Time) :
    instant (ops'.foldl (fun o op => op.onRemove k o) old)
      = instant (ops.foldl (fun o op => op.onRemove k o) old) := by
  rw [instant_foldl_onRemove, instant_foldl_onRemove]
  exact hp.foldl_eq' (fun x _ y _ z => onRemoveInstant_comm x y k z) _

theorem foldl_onAdd_perm_of {ops ops' : List Op} (hp : ops'.Perm ops)
    (hnt : ∀ x ∈ ops, ∀ y ∈ ops, x.tied y = false) (k : GoString) (old : Option Time) :
    ops'.foldl (fun o op => op.onAdd k o) old = ops.foldl (fun o op => op.onAdd k o) old :=
  hp.foldl_eq'
    (fun x hx y hy z => onAdd_comm_of (hnt x (hp.subset hx) y (hp.subset hy)) k z) old

theorem foldl_onRemove_perm_of {ops ops' : List Op} (hp : ops'.Perm ops)
    (hnt : ∀ x ∈ ops, ∀ y ∈ ops, x.tied y = false) (k : GoString) (old : Option Time) :
    ops'.foldl (fun o op => op.onRemove k o) old
      = ops.foldl (fun o op => op.onRemove k o) old :=
  hp.foldl_eq'
    (fun x hx y hy z => onRemove_comm_of (hnt x (hp.subset hx) y (hp.subset hy)) k z) old

theorem settled_call_eq {op : Op} {lset : LwwSet} (h : op.settled lset) :
    (lset.call op).1 = lset := by
  cases op with
  | add el t =>
    show (lset.Add el t).1 = lset
    by_cases hv : (validateElement el).2 = none
    · obtain ⟨x, hx, hle⟩ := h hv
      rw [Add_eq_self hv hx hle]
    · rw [Add_of_err hv]
  | remove el t =>
    show (lset.Remove el t).1 = lset
    by_cases hv : (validateElement el).2 = none
    · obtain ⟨x, hx, hle⟩ := h hv
      rw [Remove_eq_self hv hx hle]
    · rw [Remove_of_err hv]

theorem settled_after_call (op : Op) (lset : LwwSet) : op.settled (lset.call op).1 := by
  cases op with
  | add el t =>
    intro hv
    show ∃ x, (lset.Add el t).1.AddSet.lookup el = some x ∧ t ≤ x
    rw [Add_lookup_self hv]
    exact stored_ge _ t
  | remove el t =>
    intro hv
    show ∃ x, (lset.Remove el t).1.RemoveSet.lookup el = some x ∧ t ≤ x
    rw [Remove_lookup_self hv]
    exact stored_ge _ t

theorem settled_call {op : Op} {lset : LwwSet} (h : op.settled lset) (op' : Op) :
    op.settled (lset.call op').1 := by
  cases op with
  | add el t =>
    intro hv
    obtain ⟨x, hx, hle⟩ := h hv
    obtain ⟨y, hy, hxy⟩ := onAdd_mono op' el x
    exact ⟨y, by rw [call_AddSet_lookup, hx, hy], hle.trans hxy⟩
  | remove el t =>
    intro hv
    obtain ⟨x, hx, hle⟩ := h hv
    obtain ⟨y, hy, hxy⟩ := onRemove_mono op' el x
    exact ⟨y, by rw [call_RemoveSet_lookup, hx, hy], hle.trans hxy⟩

theorem settled_run {op : Op} {lset : LwwSet} (h : op.settled lset) (ops : List Op) :
    op.settled (lset.run ops) := by
  induction ops generalizing lset with
  | nil => exact h
  | cons op' ops ih =>
    rw [run_cons]
    exact ih (settled_call h op')

theorem call_keys_subset (lset : LwwSet) (op : Op) :
    lset.AddSet.keys ⊆ (lset.call op).1.AddSet.keys ∧
      lset.RemoveSet.keys ⊆ (lset.call op).1.RemoveSet.keys := by
  constructor
  · intro k hk
    obtain ⟨x, hx⟩ := (mem_keys_iff_lookup _ k).1 hk
    obtain ⟨y, hy, _⟩ := onAdd_mono op k x
    exact (mem_keys_iff_lookup _ k).2 ⟨y, by rw [call_AddSet_lookup, hx, hy]⟩
  · intro k hk
    obtain ⟨x, hx⟩ := (mem_keys_iff_lookup _ k).1 hk
    obtain ⟨y, hy, _⟩ := onRemove_mono op k x
    exact (mem_keys_iff_lookup _ k).2 ⟨y, by rw [call_RemoveSet_lookup, hx, hy]⟩

theorem run_keys_subset (lset : LwwSet) (ops : List Op) :
    lset.AddSet.keys ⊆ (lset.run ops).AddSet.keys ∧
      lset.RemoveSet.keys ⊆ (lset.run ops).RemoveSet.keys := by
  induction ops generalizing lset with
  | nil => exact ⟨fun _ h => h, fun _ h => h⟩
  | cons op ops ih =>
    rw [run_cons]
    exact ⟨fun k hk => (ih _).1 ((call_keys_subset lset op).1 hk),
      fun k hk => (ih _).2 ((call_keys_subset lset op).2 hk)⟩

theorem valid_of_Add_ok {lset : LwwSet} {el : GoString} {t : Time}
    (h : (lset.Add el t).2 = none) : (validateElement el).2 = none := by
  rw [Add_snd] at h
  cases hv : (validateElement el).2 with
  | none => rfl
  | some err => rw [hv] at h; cases h

theorem valid_of_Remove_ok {lset : LwwSet} {el : GoString} {t : Time}
    (h : (lset.Remove el t).2 = none) : (validateElement el).2 = none := by
  rw [Remove_snd] at h
  cases hv : (validateElement el).2 with
  | none => rfl
  | some err => rw [hv] at h; cases h

theorem Exist_eq_true_iff (lset : LwwSet) (el : GoString) :
    lset.Exist el = true ↔
      ∃ a, lset.AddSet.lookup el = some a ∧
        (lset.RemoveSet.lookup el = none ∨ ∃ r, lset.RemoveSet.lookup el = some r ∧ r ≤ a) := by
  unfold LwwSet.Exist
  cases ha : lset.AddSet.lookup el with
  | none => simp
  | some a =>
    cases hr : lset.RemoveSet.lookup el with
    | none => simp
    | some r =>
      have key : (a.After r || a.Equal r) = true ↔ r ≤ a := by
        rw [Bool.or_eq_true, Time.After_iff, Time.Equal_iff, Time.le_iff_lt_or_Equal]
        exact or_congr Iff.rfl eq_comm
      by_cases hle : r ≤ a
      · simp [key.2 hle, hle]
      · have hf : (a.After r || a.Equal r) = false := by
          cases hb : (a.After r || a.Equal r)
          · rfl
          · exact absurd (key.1 hb) hle
        simp [hf, hle]

/-! ## Membership -/

/-- C1: `Exist(e)` is true exactly when `e` has an entry in `AddSet` and either no
entry in `RemoveSet` or an add timestamp at or after the remove timestamp; so an element
without an entry in `AddSet` does not exist, and equal timestamps give true. -/
theorem Exist_iff (lset : LwwSet) (el : GoString) :
    (lset.Exist el = true ↔
      ∃ a, lset.AddSet.lookup el = some a ∧
        (lset.RemoveSet.lookup el = none ∨ ∃ r, lset.RemoveSet.lookup el = some r ∧ r ≤ a)) ∧
      (lset.AddSet.lookup el = none → lset.Exist el = false) ∧
      (∀ a, lset.AddSet.lookup el = some a → lset.RemoveSet.lookup el = some a →
        lset.Exist el = true) := by
  refine ⟨Exist_eq_true_iff lset el, ?_, ?_⟩
  · intro hn
    cases hE : lset.Exist el with
    | false => rfl
    | true =>
      obtain ⟨a, ha, _⟩ := (Exist_eq_true_iff lset el).1 hE
      rw [hn] at ha
      cases ha
  · intro a ha hr
    exact (Exist_eq_true_iff lset el).2 ⟨a, ha, Or.inr ⟨a, hr, le_rfl⟩⟩

/-- The instance of `Exist_iff` at a set where `"1"` was added and removed at the same
instant, and `"2"` was only removed. -/
theorem Exist_iff_witness :
    ((New.Add [49] ⟨5, 0⟩).1.Remove [49] ⟨5, 0⟩).1.Exist [49] = true ∧
      (New.Remove [50] ⟨5, 0⟩).1.Exist [50] = false :=
  ⟨(Exist_iff ((New.Add [49] ⟨5, 0⟩).1.Remove [49] ⟨5, 0⟩).1 [49]).2.2 ⟨5, 0⟩ (by decide) (by decide),
    (Exist_iff (New.Remove [50] ⟨5, 0⟩).1 [50]).2.1 (by decide)⟩

/-- C8: `Get()` has no duplicates and holds exactly the elements for which `Exist`
is true; it is empty exactly when no element exists. -/
theorem Get_spec (lset : LwwSet) :
    lset.Get.Nodup ∧ (∀ el, el ∈ lset.Get ↔ lset.Exist el = true) ∧
      (lset.Get = [] ↔ ∀ el, lset.Exist el = false) := by
  refine ⟨?_, mem_Get_iff lset, ?_⟩
  · rw [Get_eq_filter]
    exact lset.AddSet.keys_nodup.filter _
  · rw [List.eq_nil_iff_forall_not_mem]
    refine forall_congr' fun el => ?_
    rw [mem_Get_iff]
    cases lset.Exist el <;> simp

/-! ## Writes -/

/-- C2: for an element that passes `validateElement`, `Add(e, t)` returns no error;
`e` then maps to `t` if it had no entry, and otherwise to `t` if the old timestamp is
strictly before `t` and to the old timestamp if not, which is `max old t`; every other
key of `AddSet` keeps its entry. -/
theorem Add_spec (lset : LwwSet) (el : GoString) (t : Time)
    (h : (validateElement el).2 = none) :
    (lset.Add el t).2 = none ∧
      (lset.AddSet.lookup el = none → (lset.Add el t).1.AddSet.lookup el = some t) ∧
      (∀ old, lset.AddSet.lookup el = some old →
        (lset.Add el t).1.AddSet.lookup el = some (if old < t then t else old) ∧
        (lset.Add el t).1.AddSet.lookup el = some (max old t)) ∧
      (∀ k, k ≠ el → (lset.Add el t).1.AddSet.lookup k = lset.AddSet.lookup k) := by
  refine ⟨?_, ?_, ?_, ?_⟩
  · rw [Add_snd, h]; rfl
  · intro hn
    rw [Add_lookup_self h, hn]; rfl
  · intro old ho
    rw [Add_lookup_self h, ho, stored_some]
    refine ⟨?_, rfl⟩
    by_cases hlt : old < t
    · rw [if_pos hlt, Time.max_of_lt hlt]
    · rw [if_neg hlt, Time.max_of_not_lt hlt]
  · intro k hk
    exact Add_lookup_other lset el t hk

/-- The instance of `Add_spec` on a set that already holds `"1"` at instant 7. -/
theorem Add_spec_witness :
    (validateElement [49]).2 = none ∧
      ((New.Add [49] ⟨7, 0⟩).1.Add [49] ⟨5, 0⟩).2 = none ∧
      ((New.Add [49] ⟨7, 0⟩).1.Add [49] ⟨5, 0⟩).1.AddSet.lookup [49] = some (max ⟨7, 0⟩ ⟨5, 0⟩) ∧
      ((New.Add [49] ⟨7, 0⟩).1.Add [49] ⟨9, 0⟩).1.AddSet.lookup [49] = some (max ⟨7, 0⟩ ⟨9, 0⟩) := by
  have hv : (validateElement [49]).2 = none := by decide
  have ho : (New.Add [49] ⟨7, 0⟩).1.AddSet.lookup [49] = some ⟨7, 0⟩ := by decide
  have h5 := Add_spec (New.Add [49] ⟨7, 0⟩).1 [49] ⟨5, 0⟩ hv
  have h9 := Add_spec (New.Add [49] ⟨7, 0⟩).1 [49] ⟨9, 0⟩ hv
  exact ⟨hv, h5.1, (h5.2.2.1 ⟨7, 0⟩ ho).2, (h9.2.2.1 ⟨7, 0⟩ ho).2⟩

/-- C5: a second `Add(e, t)` right after the first leaves the set as the first left
it, and so does a second `Remove(e, t)`. -/
theorem Add_Remove_idempotent (lset : LwwSet) (el : GoString) (t : Time) :
    ((lset.Add el t).1.Add el t).1 = (lset.Add el t).1 ∧
      ((lset.Remove el t).1.Remove el t).1 = (lset.Remove el t).1 := by
  by_cases h : (validateElement el).2 = none
  · constructor
    · obtain ⟨x, hx, hle⟩ := stored_ge (lset.AddSet.lookup el) t
      rw [Add_eq_self h ((Add_lookup_self h lset t).trans hx) hle]
    · obtain ⟨x, hx, hle⟩ := stored_ge (lset.RemoveSet.lookup el) t
      rw [Remove_eq_self h ((Remove_lookup_self h lset t).trans hx) hle]
  · constructor
    · rw [Add_of_err h, Add_of_err h]
    · rw [Remove_of_err h, Remove_of_err h]

/-! ## Size validation -/

/-- C10: when `Add` or `Remove` returns an error, the set (both registries) is what it
was before the call. -/
theorem error_keeps_state (lset : LwwSet) (el : GoString) (t : Time) :
    ((lset.Add el t).2 ≠ none →
        (lset.Add el t).1.AddSet = lset.AddSet ∧ (lset.Add el t).1.RemoveSet = lset.RemoveSet) ∧
      ((lset.Remove el t).2 ≠ none →
        (lset.Remove el t).1.AddSet = lset.AddSet ∧
          (lset.Remove el t).1.RemoveSet = lset.RemoveSet) := by
  constructor
  · intro he
    have hv : (validateElement el).2 ≠ none := by
      intro hv
      rw [Add_snd, hv] at he
      exact he rfl
    rw [Add_of_err hv]
    exact ⟨rfl, rfl⟩
  · intro he
    have hv : (validateElement el).2 ≠ none := by
      intro hv
      rw [Remove_snd, hv] at he
      exact he rfl
    rw [Remove_of_err hv]
    exact ⟨rfl, rfl⟩

theorem len_longElement : len longElement = 536870897 := by
  unfold len longElement
  exact List.length_replicate _ _

theorem validateElement_longElement :
    (validateElement longElement).2 = some GoError.ElementSizeError := by
  apply validateElement_snd_of_gt
  · rw [len_longElement]; unfold sizeofString; norm_num
  · rw [len_longElement]; unfold sizeofString MaxStringInBytes; norm_num

/-- The instance of `error_keeps_state` at an element of `2 ^ 29 - 15` bytes, which
both calls reject. -/
theorem error_keeps_state_witness :
    (New.Add longElement ⟨0, 0⟩).2 ≠ none ∧ (New.Add longElement ⟨0, 0⟩).1.AddSet = New.AddSet ∧
      (New.Remove longElement ⟨0, 0⟩).2 ≠ none ∧
      (New.Remove longElement ⟨0, 0⟩).1.RemoveSet = New.RemoveSet := by
  have ha : (New.Add longElement ⟨0, 0⟩).2 ≠ none := by
    rw [Add_snd, validateElement_longElement]; exact fun h => Option.noConfusion h
  have hr : (New.Remove longElement ⟨0, 0⟩).2 ≠ none := by
    rw [Remove_snd, validateElement_longElement]; exact fun h => Option.noConfusion h
  exact ⟨ha, ((error_keeps_state New longElement ⟨0, 0⟩).1 ha).1, hr,
    ((error_keeps_state New longElement ⟨0, 0⟩).2 hr).2⟩

/-- C9 as stated fails: an element of `2 ^ 29 - 15` bytes is no longer than
`MaxStringInBytes`, yet `Add` and `Remove` return the wrapped `ElementSizeError`. -/
theorem size_limit_counterexample :
    len longElement ≤ MaxStringInBytes ∧
      (New.Add longElement ⟨0, 0⟩).2
        = some (GoError.wrap "failed to add element" GoError.ElementSizeError) ∧
      (New.Remove longElement ⟨0, 0⟩).2
        = some (GoError.wrap "failed to remove element" GoError.ElementSizeError) := by
  refine ⟨?_, ?_, ?_⟩
  · rw [len_longElement]; unfold MaxStringInBytes; norm_num
  · rw [Add_snd, validateElement_longElement]; rfl
  · rw [Remove_snd, validateElement_longElement]; rfl

/-- C9, amended: for a string `el` (its length plus 16 fits an `int`), `Add` and `Remove`
return an error exactly when `len(el) + unsafe.Sizeof(el)`, the length plus the 16 bytes
of the string header, exceeds `MaxStringInBytes = 2 ^ 29`; the error wraps
`ElementSizeError`; every element of at most `2 ^ 29 - 16` bytes is accepted. -/
theorem size_limit (lset : LwwSet) (el : GoString) (t : Time)
    (hlen : len el + sizeofString < 2 ^ 63) :
    ((lset.Add el t).2 ≠ none ↔ len el + sizeofString > MaxStringInBytes) ∧
      ((lset.Remove el t).2 ≠ none ↔ len el + sizeofString > MaxStringInBytes) ∧
      (∀ err, (lset.Add el t).2 = some err → err.Is GoError.ElementSizeError = true) ∧
      (∀ err, (lset.Remove el t).2 = some err → err.Is GoError.ElementSizeError = true) ∧
      (len el ≤ 2 ^ 29 - 16 → (lset.Add el t).2 = none ∧ (lset.Remove el t).2 = none) := by
  have hcases : ((validateElement el).2 = none ∧ len el + sizeofString ≤ MaxStringInBytes) ∨
      ((validateElement el).2 = some GoError.ElementSizeError ∧
        len el + sizeofString > MaxStringInBytes) := by
    by_cases h : len el + sizeofString ≤ MaxStringInBytes
    · exact Or.inl ⟨validateElement_snd_of_le hlen h, h⟩
    · exact Or.inr ⟨validateElement_snd_of_gt hlen (not_le.1 h), not_le.1 h⟩
  rw [Add_snd, Remove_snd]
  rcases hcases with ⟨hv, hle⟩ | ⟨hv, hgt⟩
  · rw [hv]
    refine ⟨?_, ?_, ?_, ?_, fun _ => ⟨rfl, rfl⟩⟩
    · exact ⟨fun h => absurd rfl h, fun h => absurd hle (not_le.2 h)⟩
    · exact ⟨fun h => absurd rfl h, fun h => absurd hle (not_le.2 h)⟩
    · intro err h; cases h
    · intro err h; cases h
  · rw [hv]
    refine ⟨?_, ?_, ?_, ?_, ?_⟩
    · exact ⟨fun _ => hgt, fun _ h => Option.noConfusion h⟩
    · exact ⟨fun _ => hgt, fun _ h => Option.noConfusion h⟩
    · intro err h
      cases h
      decide
    · intro err h
      cases h
      decide
    · intro h
      unfold sizeofString MaxStringInBytes at hgt
      omega

/-- The instance of `size_limit` at the one-byte element `"1"`, which is accepted. -/
theorem size_limit_witness :
    len [49] + sizeofString < 2 ^ 63 ∧ (New.Add [49] ⟨0, 0⟩).2 = none ∧
      (New.Remove [49] ⟨0, 0⟩).2 = none := by
  have hlen : len [49] + sizeofString < 2 ^ 63 := by decide
  exact ⟨hlen, (size_limit New [49] ⟨0, 0⟩ hlen).2.2.2.2 (by decide)⟩

/-! ## Order of the calls -/

/-- C4 as stated fails at a tie: `Add("1", a)` and `Add("1", b)` with `a` and `b`
`Equal` and in different locations leave `a` in `AddSet` in one order and `b` in the
other, since a write at a tie keeps the stored value. -/
theorem calls_commute_counterexample :
    (⟨1000, 0⟩ : Time).Equal ⟨1000, 9⟩ = true ∧
      ((New.Add [49] ⟨1000, 0⟩).1.Add [49] ⟨1000, 9⟩).1.AddSet.lookup [49]
        = some ⟨1000, 0⟩ ∧
      ((New.Add [49] ⟨1000, 9⟩).1.Add [49] ⟨1000, 0⟩).1.AddSet.lookup [49]
        = some ⟨1000, 9⟩ ∧
      ¬ Registry.Same
        ((New.call (Op.add [49] ⟨1000, 0⟩)).1.call (Op.add [49] ⟨1000, 9⟩)).1.AddSet
        ((New.call (Op.add [49] ⟨1000, 9⟩)).1.call (Op.add [49] ⟨1000, 0⟩)).1.AddSet := by
  refine ⟨by decide, by decide, by decide, fun h => ?_⟩
  exact absurd (h [49]) (by decide)

/-- C4, amended: two calls, each an `Add` or a `Remove` on any element with any
timestamp, leave in either order registries with the same keys and, for every key,
timestamps of the same instant, and the same `Exist` for every element; the registries
are the same unless the calls are tied (same kind, same element, timestamps `Equal` and
not the same value); in particular `Add(e, t1)` and `Add(e, t2)` store the same add
timestamp for `e` in either order when `t1` and `t2` are not `Equal` or are the same
value. -/
theorem calls_commute (lset : LwwSet) (op₁ op₂ : Op) :
    Registry.SameInstants ((lset.call op₁).1.call op₂).1.AddSet
        ((lset.call op₂).1.call op₁).1.AddSet ∧
      Registry.SameInstants ((lset.call op₁).1.call op₂).1.RemoveSet
        ((lset.call op₂).1.call op₁).1.RemoveSet ∧
      (∀ e, ((lset.call op₁).1.call op₂).1.Exist e = ((lset.call op₂).1.call op₁).1.Exist e) ∧
      (op₁.tied op₂ = false →
        Registry.Same ((lset.call op₁).1.call op₂).1.AddSet
          ((lset.call op₂).1.call op₁).1.AddSet ∧
        Registry.Same ((lset.call op₁).1.call op₂).1.RemoveSet
          ((lset.call op₂).1.call op₁).1.RemoveSet) ∧
      ∀ e t₁ t₂, (t₁.Equal t₂ = true → t₁ = t₂) →
        ((lset.Add e t₁).1.Add e t₂).1.AddSet.lookup e
          = ((lset.Add e t₂).1.Add e t₁).1.AddSet.lookup e := by
  have ha : Registry.SameInstants ((lset.call op₁).1.call op₂).1.AddSet
      ((lset.call op₂).1.call op₁).1.AddSet := by
    intro k
    rw [call_AddSet_lookup, call_AddSet_lookup, call_AddSet_lookup, call_AddSet_lookup]
    exact onAdd_comm_instant op₁ op₂ k _
  have hr : Registry.SameInstants ((lset.call op₁).1.call op₂).1.RemoveSet
      ((lset.call op₂).1.call op₁).1.RemoveSet := by
    intro k
    rw [call_RemoveSet_lookup, call_RemoveSet_lookup, call_RemoveSet_lookup,
      call_RemoveSet_lookup]
    exact onRemove_comm_instant op₁ op₂ k _
  refine ⟨ha, hr, fun e => Exist_congr_instant (ha e) (hr e), ?_, ?_⟩
  · intro hnt
    constructor
    · intro k
      rw [call_AddSet_lookup, call_AddSet_lookup, call_AddSet_lookup, call_AddSet_lookup]
      exact onAdd_comm_of hnt k _
    · intro k
      rw [call_RemoveSet_lookup, call_RemoveSet_lookup, call_RemoveSet_lookup,
        call_RemoveSet_lookup]
      exact onRemove_comm_of hnt k _
  · intro e t₁ t₂ hne
    rw [Add_AddSet_lookup, Add_AddSet_lookup, Add_AddSet_lookup, Add_AddSet_lookup]
    refine onAdd_comm_of ?_ e _
    cases ht : (Op.add e t₁).tied (Op.add e t₂) with
    | false => rfl
    | true =>
      exfalso
      simp only [Op.tied, Bool.and_eq_true, decide_eq_true_eq] at ht
      exact ht.2 (hne ht.1.2)

/-- The instance of `calls_commute` at `Add("1", 1000)` and `Add("1", 2000)` on a fresh
set: the calls are not tied and both orders leave the same `AddSet`. -/
theorem calls_commute_witness :
    (Op.add [49] ⟨1000, 0⟩).tied (Op.add [49] ⟨2000, 9⟩) = false ∧
      Registry.Same
        ((New.call (Op.add [49] ⟨1000, 0⟩)).1.call (Op.add [49] ⟨2000, 9⟩)).1.AddSet
        ((New.call (Op.add [49] ⟨2000, 9⟩)).1.call (Op.add [49] ⟨1000, 0⟩)).1.AddSet := by
  have hnt : (Op.add [49] ⟨1000, 0⟩).tied (Op.add [49] ⟨2000, 9⟩) = false := by decide
  exact ⟨hnt, ((calls_commute New (Op.add [49] ⟨1000, 0⟩) (Op.add [49] ⟨2000, 9⟩)).2.2.2.1
    hnt).1⟩

/-- C6: on a fresh set, `Add(e, t)` and `Remove(e, t)` with the same timestamp, in
either order, leave `Exist(e)` true and `Get()` equal to `[e]`. -/
theorem add_wins_tie (el : GoString) (t : Time) (h : (validateElement el).2 = none) :
    ((New.Add el t).1.Remove el t).1.Exist el = true ∧
      ((New.Add el t).1.Remove el t).1.Get = [el] ∧
      ((New.Remove el t).1.Add el t).1.Exist el = true ∧
      ((New.Remove el t).1.Add el t).1.Get = [el] := by
  have hnew : New.AddSet.lookup el = none := rfl
  have hnew' : (New.Remove el t).1.AddSet.lookup el = none := by rw [Remove_AddSet]; rfl
  have ha₁ : ((New.Add el t).1.Remove el t).1.AddSet.lookup el = some t := by
    rw [Remove_AddSet, Add_lookup_self h]; rfl
  have hr₁ : ((New.Add el t).1.Remove el t).1.RemoveSet.lookup el = some t := by
    rw [Remove_lookup_self h, Add_RemoveSet]; rfl
  have ha₂ : ((New.Remove el t).1.Add el t).1.AddSet.lookup el = some t := by
    rw [Add_lookup_self h, Remove_AddSet]; rfl
  have hr₂ : ((New.Remove el t).1.Add el t).1.RemoveSet.lookup el = some t := by
    rw [Add_RemoveSet, Remove_lookup_self h]; rfl
  have hk₁ : ((New.Add el t).1.Remove el t).1.AddSet.keys = [el] := by
    rw [Remove_AddSet, Add_of_lookup_none h hnew]; rfl
  have hk₂ : ((New.Remove el t).1.Add el t).1.AddSet.keys = [el] := by
    rw [Add_of_lookup_none h hnew']
    show (AList.insert el t (New.Remove el t).1.AddSet).keys = [el]
    rw [Remove_AddSet]; rfl
  have he₁ : ((New.Add el t).1.Remove el t).1.Exist el = true :=
    (Exist_eq_true_iff _ el).2 ⟨t, ha₁, Or.inr ⟨t, hr₁, le_rfl⟩⟩
  have he₂ : ((New.Remove el t).1.Add el t).1.Exist el = true :=
    (Exist_eq_true_iff _ el).2 ⟨t, ha₂, Or.inr ⟨t, hr₂, le_rfl⟩⟩
  exact ⟨he₁, Get_eq_singleton hk₁ he₁, he₂, Get_eq_singleton hk₂ he₂⟩

/-- The instance of `add_wins_tie` at the element `"1"` and the instant 1000. -/
theorem add_wins_tie_witness :
    (validateElement [49]).2 = none ∧
      ((New.Add [49] ⟨1000, 0⟩).1.Remove [49] ⟨1000, 0⟩).1.Get = [[49]] ∧
      ((New.Remove [49] ⟨1000, 0⟩).1.Add [49] ⟨1000, 0⟩).1.Get = [[49]] := by
  have hv : (validateElement [49]).2 = none := by decide
  have h := add_wins_tie [49] ⟨1000, 0⟩ hv
  exact ⟨hv, h.2.1, h.2.2.2⟩

/-- C3 as stated fails at a tie: of `Add("1", a)` and `Add("1", b)` with `a` and `b`
`Equal` and in different locations, `AddSet` keeps the one that came first, so the two
orders of these calls leave different registries. -/
theorem run_stores_maximum_counterexample :
    (∀ op ∈ [Op.add [49] ⟨1000, 0⟩, Op.add [49] ⟨1000, 9⟩],
        (validateElement op.el).2 = none) ∧
      List.Perm [Op.add [49] ⟨1000, 9⟩, Op.add [49] ⟨1000, 0⟩]
        [Op.add [49] ⟨1000, 0⟩, Op.add [49] ⟨1000, 9⟩] ∧
      (New.run [Op.add [49] ⟨1000, 0⟩, Op.add [49] ⟨1000, 9⟩]).AddSet.lookup [49]
        = some ⟨1000, 0⟩ ∧
      (New.run [Op.add [49] ⟨1000, 9⟩, Op.add [49] ⟨1000, 0⟩]).AddSet.lookup [49]
        = some ⟨1000, 9⟩ ∧
      ¬ Registry.Same (New.run [Op.add [49] ⟨1000, 9⟩, Op.add [49] ⟨1000, 0⟩]).AddSet
        (New.run [Op.add [49] ⟨1000, 0⟩, Op.add [49] ⟨1000, 9⟩]).AddSet := by
  refine ⟨by decide, List.Perm.swap _ _ _, by decide, by decide, fun h => ?_⟩
  exact absurd (h [49]) (by decide)

/-- C3, amended: after any sequence of calls with accepted elements on a fresh set,
`AddSet` has an entry for `e` exactly when the sequence has a call `Add(e, _)`, and the
entry is the timestamp of such a call that no other one is after; `RemoveSet` likewise
for `Remove(e, _)`. Every permutation of the sequence gives registries with the same
keys and timestamps of the same instants, and the same `Exist` for every element. When
no two calls of the sequence are tied, the entry is the one greatest timestamp and
every permutation gives the same registries. -/
theorem run_stores_maximum (ops : List Op)
    (hv : ∀ op ∈ ops, (validateElement op.el).2 = none) :
    (∀ e, (New.run ops).AddSet.lookup e = none ↔ ∀ t, Op.add e t ∉ ops) ∧
      (∀ e m, (New.run ops).AddSet.lookup e = some m →
        Op.add e m ∈ ops ∧ ∀ t, Op.add e t ∈ ops → t ≤ m) ∧
      (∀ e, (New.run ops).RemoveSet.lookup e = none ↔ ∀ t, Op.remove e t ∉ ops) ∧
      (∀ e m, (New.run ops).RemoveSet.lookup e = some m →
        Op.remove e m ∈ ops ∧ ∀ t, Op.remove e t ∈ ops → t ≤ m) ∧
      (∀ ops', ops'.Perm ops →
        Registry.SameInstants (New.run ops').AddSet (New.run ops).AddSet ∧
        Registry.SameInstants (New.run ops').RemoveSet (New.run ops).RemoveSet ∧
        ∀ e, (New.run ops').Exist e = (New.run ops).Exist e) ∧
      ((∀ op₁ ∈ ops, ∀ op₂ ∈ ops, op₁.tied op₂ = false) →
        (∀ e m, (New.run ops).AddSet.lookup e = some m ↔
          Op.add e m ∈ ops ∧ ∀ t, Op.add e t ∈ ops → t ≤ m) ∧
        (∀ e m, (New.run ops).RemoveSet.lookup e = some m ↔
          Op.remove e m ∈ ops ∧ ∀ t, Op.remove e t ∈ ops → t ≤ m) ∧
        ∀ ops', ops'.Perm ops →
          Registry.Same (New.run ops').AddSet (New.run ops).AddSet ∧
          Registry.Same (New.run ops').RemoveSet (New.run ops).RemoveSet) := by
  have hadd : ∀ e, (New.run ops).AddSet.lookup e = (addStamps ops e).foldl stored none :=
    fun e => (run_AddSet_lookup New ops e).trans (foldl_onAdd_eq_stamps ops e hv none)
  have hrem : ∀ e, (New.run ops).RemoveSet.lookup e
      = (removeStamps ops e).foldl stored none :=
    fun e => (run_RemoveSet_lookup New ops e).trans (foldl_onRemove_eq_stamps ops e hv none)
  have hsa : ∀ e m, (New.run ops).AddSet.lookup e = some m →
      Op.add e m ∈ ops ∧ ∀ t, Op.add e t ∈ ops → t ≤ m := by
    intro e m h
    rw [hadd] at h
    obtain ⟨hm, hall⟩ := foldl_stored_none_spec h
    exact ⟨(mem_addStamps ops e m).1 hm, fun t ht => hall t ((mem_addStamps ops e t).2 ht)⟩
  have hsr : ∀ e m, (New.run ops).RemoveSet.lookup e = some m →
      Op.remove e m ∈ ops ∧ ∀ t, Op.remove e t ∈ ops → t ≤ m := by
    intro e m h
    rw [hrem] at h
    obtain ⟨hm, hall⟩ := foldl_stored_none_spec h
    exact ⟨(mem_removeStamps ops e m).1 hm,
      fun t ht => hall t ((mem_removeStamps ops e t).2 ht)⟩
  have hia : ∀ ops', ops'.Perm ops →
      Registry.SameInstants (New.run ops').AddSet (New.run ops).AddSet := by
    intro ops' hp k
    rw [run_AddSet_lookup, run_AddSet_lookup]
    exact foldl_onAdd_perm_instant hp k _
  have hir : ∀ ops', ops'.Perm ops →
      Registry.SameInstants (New.run ops').RemoveSet (New.run ops).RemoveSet := by
    intro ops' hp k
    rw [run_RemoveSet_lookup, run_RemoveSet_lookup]
    exact foldl_onRemove_perm_instant hp k _
  refine ⟨?_, hsa, ?_, hsr, ?_, ?_⟩
  · intro e
    rw [hadd, foldl_stored_none_eq_none, List.eq_nil_iff_forall_not_mem]
    exact ⟨fun h t ht => h t ((mem_addStamps ops e t).2 ht),
      fun h t ht => h t ((mem_addStamps ops e t).1 ht)⟩
  · intro e
    rw [hrem, foldl_stored_none_eq_none, List.eq_nil_iff_forall_not_mem]
    exact ⟨fun h t ht => h t ((mem_removeStamps ops e t).2 ht),
      fun h t ht => h t ((mem_removeStamps ops e t).1 ht)⟩
  · intro ops' hp
    exact ⟨hia ops' hp, hir ops' hp,
      fun e => Exist_congr_instant (hia ops' hp e) (hir ops' hp e)⟩
  · intro hnt
    refine ⟨?_, ?_, ?_⟩
    · intro e m
      refine ⟨hsa e m, ?_⟩
      rintro ⟨hm, hall⟩
      rw [hadd]
      refine foldl_stored_none_of_max ((mem_addStamps ops e m).2 hm)
        (fun t ht => hall t ((mem_addStamps ops e t).1 ht)) ?_
      intro t ht hn
      exact tied_add_false (hnt (Op.add e t) ((mem_addStamps ops e t).1 ht) (Op.add e m) hm) hn
    · intro e m
      refine ⟨hsr e m, ?_⟩
      rintro ⟨hm, hall⟩
      rw [hrem]
      refine foldl_stored_none_of_max ((mem_removeStamps ops e m).2 hm)
        (fun t ht => hall t ((mem_removeStamps ops e t).1 ht)) ?_
      intro t ht hn
      exact tied_remove_false
        (hnt (Op.remove e t) ((mem_removeStamps ops e t).1 ht) (Op.remove e m) hm) hn
    · intro ops' hp
      constructor
      · intro k
        rw [run_AddSet_lookup, run_AddSet_lookup]
        exact foldl_onAdd_perm_of hp hnt k _
      · intro k
        rw [run_RemoveSet_lookup, run_RemoveSet_lookup]
        exact foldl_onRemove_perm_of hp hnt k _

/-- The instance of `run_stores_maximum` at `Add("1", 2000)`, `Remove("1", 3000)`,
`Add("1", 1000)`: no two calls are tied and the add registry holds 2000 for `"1"`. -/
theorem run_stores_maximum_witness :
    (∀ op ∈ [Op.add [49] ⟨2000, 0⟩, Op.remove [49] ⟨3000, 0⟩, Op.add [49] ⟨1000, 0⟩],
        (validateElement op.el).2 = none) ∧
      (∀ op₁ ∈ [Op.add [49] ⟨2000, 0⟩, Op.remove [49] ⟨3000, 0⟩, Op.add [49] ⟨1000, 0⟩],
        ∀ op₂ ∈ [Op.add [49] ⟨2000, 0⟩, Op.remove [49] ⟨3000, 0⟩, Op.add [49] ⟨1000, 0⟩],
          op₁.tied op₂ = false) ∧
      (New.run [Op.add [49] ⟨2000, 0⟩, Op.remove [49] ⟨3000, 0⟩,
        Op.add [49] ⟨1000, 0⟩]).AddSet.lookup [49] = some ⟨2000, 0⟩ := by
  have hv : ∀ op ∈ [Op.add [49] ⟨2000, 0⟩, Op.remove [49] ⟨3000, 0⟩, Op.add [49] ⟨1000, 0⟩],
      (validateElement op.el).2 = none := by decide
  have hnt : ∀ op₁ ∈ [Op.add [49] ⟨2000, 0⟩, Op.remove [49] ⟨3000, 0⟩,
      Op.add [49] ⟨1000, 0⟩],
      ∀ op₂ ∈ [Op.add [49] ⟨2000, 0⟩, Op.remove [49] ⟨3000, 0⟩, Op.add [49] ⟨1000, 0⟩],
        op₁.tied op₂ = false := by decide
  have hmax : ∀ t, Op.add [49] t ∈
      [Op.add [49] ⟨2000, 0⟩, Op.remove [49] ⟨3000, 0⟩, Op.add [49] ⟨1000, 0⟩] →
        t ≤ ⟨2000, 0⟩ := by
    intro t ht
    simp only [List.mem_cons, Op.add.injEq, true_and, reduceCtorEq, false_or,
      List.not_mem_nil, or_false] at ht
    rcases ht with rfl | rfl <;> decide
  exact ⟨hv, hnt, (((run_stores_maximum _ hv).2.2.2.2.2 hnt).1 [49] ⟨2000, 0⟩).2
    ⟨by decide, hmax⟩⟩

/-- C7: when a sequence of calls on a fresh set contains a `Remove(e, tr)` whose
timestamp is strictly after that of every `Add(e, _)` of the sequence, `Exist(e)` is
false at the end and `e` is not in `Get()`, in whatever order the calls come. -/
theorem later_remove_wins (ops : List Op) (e : GoString) (tr : Time)
    (hr : Op.remove e tr ∈ ops) (ha : ∀ t, Op.add e t ∈ ops → t < tr) :
    (New.run ops).Exist e = false ∧ e ∉ (New.run ops).Get := by
  have hfalse : (New.run ops).Exist e = false := by
    cases hE : (New.run ops).Exist e with
    | false => rfl
    | true =>
      exfalso
      obtain ⟨a, hla, hrem⟩ := (Exist_eq_true_iff _ e).1 hE
      rw [run_AddSet_lookup] at hla
      rcases foldl_onAdd_some hla with h | ⟨hval, hmem⟩
      · cases h
      · obtain ⟨r, hlr, hle⟩ := foldl_onRemove_ge hval hr (New.RemoveSet.lookup e)
        rw [run_RemoveSet_lookup, hlr] at hrem
        rcases hrem with h | ⟨r', hr', hle'⟩
        · cases h
        · cases hr'
          exact absurd (ha a hmem) (Time.not_lt_iff.2 (hle.trans hle'))
  refine ⟨hfalse, fun hmem => ?_⟩
  rw [mem_Get_iff, hfalse] at hmem
  cases hmem

/-- The instance of `later_remove_wins` from `TestMultiThreaded`: `Add("2", t3)`,
`Remove("2", t1)`, `Remove("2", t2)`, `Remove("2", t4)`. -/
theorem later_remove_wins_witness :
    (New.run [Op.add [50] ⟨3000, 0⟩, Op.remove [50] ⟨1000, 0⟩, Op.remove [50] ⟨2000, 0⟩,
        Op.remove [50] ⟨4000, 0⟩]).Exist [50] = false ∧
      [50] ∉ (New.run [Op.add [50] ⟨3000, 0⟩, Op.remove [50] ⟨1000, 0⟩, Op.remove [50] ⟨2000, 0⟩,
        Op.remove [50] ⟨4000, 0⟩]).Get := by
  refine later_remove_wins _ [50] ⟨4000, 0⟩ (by decide) ?_
  intro t ht
  simp only [List.mem_cons, Op.add.injEq, true_and, reduceCtorEq, List.not_mem_nil,
    or_false] at ht
  rw [ht]
  decide

/-! ## Frame, symmetry and growth -/

/-- C11: `Add` leaves `RemoveSet` as it was and `Remove` leaves `AddSet` as it was. -/
theorem Add_Remove_frame (lset : LwwSet) (el : GoString) (t : Time) :
    (lset.Add el t).1.RemoveSet = lset.RemoveSet ∧ (lset.Remove el t).1.AddSet = lset.AddSet :=
  ⟨Add_RemoveSet lset el t, Remove_AddSet lset el t⟩

/-- C12: `Remove(e, t)` succeeds exactly when `Add(e, t)` does, and the set it leaves is
the one obtained by exchanging the two registries, calling `Add(e, t)` and exchanging
them back. -/
theorem Remove_mirrors_Add (lset : LwwSet) (el : GoString) (t : Time) :
    ((lset.Remove el t).2 = none ↔ (lset.Add el t).2 = none) ∧
      ((lset.Remove el t).2 = none ↔ (lset.swap.Add el t).2 = none) ∧
      (lset.Remove el t).1 = (lset.swap.Add el t).1.swap := by
  refine ⟨?_, ?_, ?_⟩
  · rw [Remove_snd, Add_snd]
    cases (validateElement el).2 <;> simp
  · rw [Remove_snd, Add_snd]
    cases (validateElement el).2 <;> simp
  · by_cases h : (validateElement el).2 = none
    · unfold LwwSet.Remove LwwSet.Add
      rw [validateElement_ok h]
      show (match lset.RemoveSet.lookup el with
        | some val =>
          if val.Before t then
            ({ lset with RemoveSet := lset.RemoveSet.insert el t }, none)
          else (lset, (none : Option GoError))
        | none => ({ lset with RemoveSet := lset.RemoveSet.insert el t }, none)).1
        = (match lset.RemoveSet.lookup el with
        | some val =>
          if val.Before t then
            ({ lset.swap with AddSet := lset.RemoveSet.insert el t }, none)
          else (lset.swap, (none : Option GoError))
        | none => ({ lset.swap with AddSet := lset.RemoveSet.insert el t }, none)).1.swap
      cases lset.RemoveSet.lookup el with
      | none => rfl
      | some val =>
        dsimp only
        split <;> rfl
    · rw [Remove_of_err h, Add_of_err h]
      rfl

/-- C13: once a successful `Add(e, t)` has been applied, after any further calls
`AddSet` still has an entry for `e`, with a timestamp not before `t`; likewise for
`Remove` and `RemoveSet`. -/
theorem stamp_never_lowered (lset : LwwSet) (el : GoString) (t : Time) (ops : List Op) :
    ((lset.Add el t).2 = none →
        ∃ x, ((lset.Add el t).1.run ops).AddSet.lookup el = some x ∧ t ≤ x) ∧
      ((lset.Remove el t).2 = none →
        ∃ x, ((lset.Remove el t).1.run ops).RemoveSet.lookup el = some x ∧ t ≤ x) := by
  constructor
  · intro h
    exact settled_run (settled_after_call (Op.add el t) lset) ops (valid_of_Add_ok h)
  · intro h
    exact settled_run (settled_after_call (Op.remove el t) lset) ops (valid_of_Remove_ok h)

/-- The instance of `stamp_never_lowered` at `Add("1", 5)` on a fresh set, followed by
`Add("1", 3)` and `Remove("1", 9)`. -/
theorem stamp_never_lowered_witness :
    (New.Add [49] ⟨5, 0⟩).2 = none ∧
      ∃ x, ((New.Add [49] ⟨5, 0⟩).1.run [Op.add [49] ⟨3, 0⟩, Op.remove [49] ⟨9, 0⟩]).AddSet.lookup [49]
        = some x ∧ (⟨5, 0⟩ : Time) ≤ x := by
  have h : (New.Add [49] ⟨5, 0⟩).2 = none := by decide
  exact ⟨h, (stamp_never_lowered New [49] ⟨5, 0⟩ [Op.add [49] ⟨3, 0⟩, Op.remove [49] ⟨9, 0⟩]).1 h⟩

/-- C14: in any sequence of calls, a call that already occurs earlier in the sequence
changes nothing when it is made again: the final set is the same with and without the
repetition. An `Add(e, t)` on a set whose add timestamp for `e` is at or after `t`
leaves the set unchanged, and so does such a `Remove`. -/
theorem replay_is_noop (lset : LwwSet) (op : Op) (ops₁ ops₂ ops₃ : List Op) :
    lset.run (ops₁ ++ op :: (ops₂ ++ op :: ops₃)) = lset.run (ops₁ ++ op :: (ops₂ ++ ops₃)) ∧
      (∀ e t x, lset.AddSet.lookup e = some x → t ≤ x → (lset.Add e t).1 = lset) ∧
      (∀ e t x, lset.RemoveSet.lookup e = some x → t ≤ x → (lset.Remove e t).1 = lset) := by
  refine ⟨?_, ?_, ?_⟩
  · rw [run_append, run_cons, run_append, run_cons, run_append, run_cons, run_append]
    rw [settled_call_eq (settled_run (settled_after_call op (lset.run ops₁)) ops₂)]
  · intro e t x hx hle
    exact @settled_call_eq (Op.add e t) lset (fun _ => ⟨x, hx, hle⟩)
  · intro e t x hx hle
    exact @settled_call_eq (Op.remove e t) lset (fun _ => ⟨x, hx, hle⟩)

/-- The instance of `replay_is_noop` at a fresh set holding `"1"` at instant 7 and the
call `Add("1", 5)`. -/
theorem replay_is_noop_witness :
    (New.Add [49] ⟨7, 0⟩).1.AddSet.lookup [49] = some ⟨7, 0⟩ ∧ (⟨5, 0⟩ : Time) ≤ ⟨7, 0⟩ ∧
      ((New.Add [49] ⟨7, 0⟩).1.Add [49] ⟨5, 0⟩).1 = (New.Add [49] ⟨7, 0⟩).1 := by
  have hx : (New.Add [49] ⟨7, 0⟩).1.AddSet.lookup [49] = some ⟨7, 0⟩ := by decide
  have hle : (⟨5, 0⟩ : Time) ≤ ⟨7, 0⟩ := by decide
  exact ⟨hx, hle,
    (replay_is_noop (New.Add [49] ⟨7, 0⟩).1 (Op.add [49] ⟨5, 0⟩) [] [] []).2.1 [49] ⟨5, 0⟩ ⟨7, 0⟩ hx hle⟩

/-- C15: after a successful `Add(e, t)`, `Exist(e)` is true exactly when `e` has no
entry in `RemoveSet` or its remove timestamp is not after the greater of `t` and the add
timestamp stored before; so it is true when `t` is at or after the remove timestamp,
and there is a set on which `Add(e, t)` succeeds and `Exist(e)` is false right after. -/
theorem Exist_after_Add (lset : LwwSet) (el : GoString) (t : Time)
    (h : (lset.Add el t).2 = none) :
    ((lset.Add el t).1.Exist el = true ↔
        lset.RemoveSet.lookup el = none ∨
          ∃ r, lset.RemoveSet.lookup el = some r ∧
            r ≤ (match lset.AddSet.lookup el with
              | some a => max t a
              | none => t)) ∧
      (∀ r, lset.RemoveSet.lookup el = some r → r ≤ t → (lset.Add el t).1.Exist el = true) ∧
      ∃ (lset' : LwwSet) (el' : GoString) (t' : Time),
        (lset'.Add el' t').2 = none ∧ (lset'.Add el' t').1.Exist el' = false := by
  have hv := valid_of_Add_ok h
  have hnew : ∃ x, (lset.Add el t).1.AddSet.lookup el = some x ∧
      x.nsec = (match lset.AddSet.lookup el with
        | some a => max t a
        | none => t).nsec := by
    rw [Add_lookup_self hv]
    cases lset.AddSet.lookup el with
    | none => exact ⟨t, rfl, rfl⟩
    | some a =>
      refine ⟨max a t, stored_some a t, ?_⟩
      show (max a t).nsec = (max t a).nsec
      rw [Time.nsec_max, Time.nsec_max, max_comm]
  have hiff : (lset.Add el t).1.Exist el = true ↔
      lset.RemoveSet.lookup el = none ∨
        ∃ r, lset.RemoveSet.lookup el = some r ∧
          r ≤ (match lset.AddSet.lookup el with
            | some a => max t a
            | none => t) := by
    obtain ⟨x, hx, hxn⟩ := hnew
    have hle : ∀ r : Time, r ≤ x ↔
        r ≤ (match lset.AddSet.lookup el with
          | some a => max t a
          | none => t) := by
      intro r
      rw [Time.le_iff, Time.le_iff, hxn]
    rw [Exist_eq_true_iff, Add_RemoveSet, hx]
    constructor
    · rintro ⟨a, ha, hr⟩
      cases ha
      rcases hr with hr | ⟨r, hr, hra⟩
      · exact Or.inl hr
      · exact Or.inr ⟨r, hr, (hle r).1 hra⟩
    · intro hr
      refine ⟨x, rfl, ?_⟩
      rcases hr with hr | ⟨r, hr, hra⟩
      · exact Or.inl hr
      · exact Or.inr ⟨r, hr, (hle r).2 hra⟩
  refine ⟨hiff, ?_, ?_⟩
  · intro r hr hle
    refine hiff.2 (Or.inr ⟨r, hr, ?_⟩)
    cases lset.AddSet.lookup el with
    | none => exact hle
    | some a => exact hle.trans (Time.le_max_fst t a)
  · exact ⟨(New.Remove [49] ⟨6, 0⟩).1, [49], ⟨5, 0⟩, by decide, by decide⟩

/-- The instance of `Exist_after_Add` at `Add("1", 5)` on a set that holds a removal of
`"1"` at instant 3. -/
theorem Exist_after_Add_witness :
    ((New.Remove [49] ⟨3, 0⟩).1.Add [49] ⟨5, 0⟩).2 = none ∧
      (New.Remove [49] ⟨3, 0⟩).1.RemoveSet.lookup [49] = some ⟨3, 0⟩ ∧
      ((New.Remove [49] ⟨3, 0⟩).1.Add [49] ⟨5, 0⟩).1.Exist [49] = true := by
  have h : ((New.Remove [49] ⟨3, 0⟩).1.Add [49] ⟨5, 0⟩).2 = none := by decide
  have hr : (New.Remove [49] ⟨3, 0⟩).1.RemoveSet.lookup [49] = some ⟨3, 0⟩ := by decide
  exact ⟨h, hr, (Exist_after_Add (New.Remove [49] ⟨3, 0⟩).1 [49] ⟨5, 0⟩ h).2.1 ⟨3, 0⟩ hr (by decide)⟩

/-- C16: no call deletes an entry: every key of `AddSet` and every key of `RemoveSet`
before a call is a key of it after the call, and so after any sequence of calls. -/
theorem entries_never_deleted (lset : LwwSet) (op : Op) (ops : List Op) :
    lset.AddSet.keys ⊆ (lset.call op).1.AddSet.keys ∧
      lset.RemoveSet.keys ⊆ (lset.call op).1.RemoveSet.keys ∧
      lset.AddSet.keys ⊆ (lset.run ops).AddSet.keys ∧
      lset.RemoveSet.keys ⊆ (lset.run ops).RemoveSet.keys :=
  ⟨(call_keys_subset lset op).1, (call_keys_subset lset op).2, (run_keys_subset lset ops).1,
    (run_keys_subset lset ops).2⟩

/-- C17: the set returned by `New()` is empty: neither registry has an entry, `Exist`
is false for every element and `Get()` returns no element. -/
theorem New_empty :
    New.AddSet.entries = [] ∧ New.RemoveSet.entries = [] ∧ (∀ el, New.Exist el = false) ∧
      New.Get = [] :=
  ⟨rfl, rfl, fun _ => rfl, rfl⟩

/-- C19: an `Add` makes no element disappear (an element that exists before the call
exists after it) and a `Remove` makes no element appear (an element that does not exist
before the call does not exist after it). -/
theorem membership_monotone (lset : LwwSet) (x : GoString) (t : Time) (el : GoString) :
    (lset.Exist el = true → (lset.Add x t).1.Exist el = true) ∧
      (lset.Exist el = false → (lset.Remove x t).1.Exist el = false) := by
  constructor
  · intro h
    obtain ⟨a, ha, hr⟩ := (Exist_eq_true_iff lset el).1 h
    obtain ⟨y, hy, hay⟩ := onAdd_mono (Op.add x t) el a
    refine (Exist_eq_true_iff _ el).2 ⟨y, by rw [Add_AddSet_lookup, ha, hy], ?_⟩
    rw [Add_RemoveSet]
    rcases hr with hr | ⟨r, hr, hle⟩
    · exact Or.inl hr
    · exact Or.inr ⟨r, hr, hle.trans hay⟩
  · intro h
    cases hE : (lset.Remove x t).1.Exist el with
    | false => rfl
    | true =>
      exfalso
      obtain ⟨a, ha, hr⟩ := (Exist_eq_true_iff _ el).1 hE
      rw [Remove_AddSet] at ha
      have hnot : ¬ lset.Exist el = true := by rw [h]; exact Bool.false_ne_true
      apply hnot
      refine (Exist_eq_true_iff lset el).2 ⟨a, ha, ?_⟩
      cases hl : lset.RemoveSet.lookup el with
      | none => exact Or.inl rfl
      | some r =>
        right
        obtain ⟨y, hy, hry⟩ := onRemove_mono (Op.remove x t) el r
        rw [Remove_RemoveSet_lookup, hl, hy] at hr
        rcases hr with hr | ⟨r', hr', hle⟩
        · cases hr
        · cases hr'
          exact ⟨r, rfl, hry.trans hle⟩

/-- The instance of `membership_monotone` at a set where `"1"` exists and `"2"` does
not, for calls on `"1"` with an older and a newer timestamp. -/
theorem membership_monotone_witness :
    (New.Add [49] ⟨5, 0⟩).1.Exist [49] = true ∧
      ((New.Add [49] ⟨5, 0⟩).1.Add [49] ⟨3, 0⟩).1.Exist [49] = true ∧
      (New.Add [49] ⟨5, 0⟩).1.Exist [50] = false ∧
      ((New.Add [49] ⟨5, 0⟩).1.Remove [50] ⟨9, 0⟩).1.Exist [50] = false := by
  have h₁ : (New.Add [49] ⟨5, 0⟩).1.Exist [49] = true := by decide
  have h₂ : (New.Add [49] ⟨5, 0⟩).1.Exist [50] = false := by decide
  exact ⟨h₁, (membership_monotone (New.Add [49] ⟨5, 0⟩).1 [49] ⟨3, 0⟩ [49]).1 h₁, h₂,
    (membership_monotone (New.Add [49] ⟨5, 0⟩).1 [50] ⟨9, 0⟩ [50]).2 h₂⟩

/-- C20: a call on `x` changes nothing for another element `e`: its add timestamp, its
remove timestamp and `Exist(e)` are the same after `Add(x, t)` and after
`Remove(x, t)` as before. -/
theorem other_elements_untouched (lset : LwwSet) (x el : GoString) (t : Time)
    (hne : el ≠ x) :
    (lset.Add x t).1.AddSet.lookup el = lset.AddSet.lookup el ∧
      (lset.Add x t).1.RemoveSet.lookup el = lset.RemoveSet.lookup el ∧
      (lset.Add x t).1.Exist el = lset.Exist el ∧
      (lset.Remove x t).1.AddSet.lookup el = lset.AddSet.lookup el ∧
      (lset.Remove x t).1.RemoveSet.lookup el = lset.RemoveSet.lookup el ∧
      (lset.Remove x t).1.Exist el = lset.Exist el := by
  have h₁ := Add_lookup_other lset x t hne
  have h₂ : (lset.Add x t).1.RemoveSet.lookup el = lset.RemoveSet.lookup el := by
    rw [Add_RemoveSet]
  have h₃ : (lset.Remove x t).1.AddSet.lookup el = lset.AddSet.lookup el := by
    rw [Remove_AddSet]
  have h₄ := Remove_lookup_other lset x t hne
  exact ⟨h₁, h₂, Exist_congr h₁ h₂, h₃, h₄, Exist_congr h₃ h₄⟩

/-- The instance of `other_elements_untouched` at a set holding `"1"`, for calls on
`"2"`. -/
theorem other_elements_untouched_witness :
    ([49] : GoString) ≠ [50] ∧
      ((New.Add [49] ⟨5, 0⟩).1.Add [50] ⟨9, 0⟩).1.AddSet.lookup [49]
        = (New.Add [49] ⟨5, 0⟩).1.AddSet.lookup [49] ∧
      ((New.Add [49] ⟨5, 0⟩).1.Remove [50] ⟨9, 0⟩).1.Exist [49] = (New.Add [49] ⟨5, 0⟩).1.Exist [49] := by
  have hne : ([49] : GoString) ≠ [50] := by decide
  have h := other_elements_untouched (New.Add [49] ⟨5, 0⟩).1 [50] [49] ⟨9, 0⟩ hne
  exact ⟨hne, h.1, h.2.2.2.2.2⟩

end Lww
